import Mathlib

/-!
# gcoder: the step log, its builders, the replay engine and the Bound plotter

A shallow embedding of `gcoder.go` and of `imager.go`: the `Bound` plotter, the
unexported `plotter` that renders to a rasterizer, and `MakeRGBA`.

Modelling conventions.

* `float64` coordinates are idealised as elements of an arbitrary linearly
  ordered field `R` (for instance `ℚ`): `+`, `<`, `==` and the literals `0`
  and `100` are the only operations the code applies to them.  Rounding,
  NaN, infinities and signed zeros are outside the model.
* `Command` is Go's `type Command int`; every integer is a possible value.
* `[]*Step` is a list of step values (no nil entries, no aliasing) for the
  builders and for the replay `Image.Plot` of an Image value.
* `PlotPtr` is `Plot` on its receiver `im *Image`: the slice header, the
  elements of the backing array and the Steps behind them are read from a
  `Memory`, and the methods of a Plotter act on the program state, which is
  that memory and the receiver of the Plotter.  `plotPtr_frame` shows that it
  is the replay of the Image value whenever the Plotter does not write to the
  Image.
* A Go method with a pointer receiver becomes a function returning the new
  receiver together with the returned `error` (`none` is `nil`).
* `Bound.pts` is a natural number: the counter cannot wrap for a log that
  fits in memory.
* The packages `raster`, `geom`, `image` and `draw` are external: the
  rasterizer is the log of the operations applied to it, a similarity is the
  record of the arguments of `geom.NewSimilarity`, and its `Apply` is taken as
  the spec describes it (scale and translation, rotation 0).
-/

namespace Gcoder

/-- Go: `type Command int`. -/
abbrev Command := Int

/-- Go: `CmdInvalid Command = iota`. -/
def CmdInvalid : Command := 0

/-- Go: `CmdSetOrigin`, the second constant of the `iota` block. -/
def CmdSetOrigin : Command := 1

/-- Step holds an atom of g-code work. -/
structure Step (R : Type) where
  X : R
  Y : R
  Z : R
  Rel : Bool
  Active : Bool
  Power : R
  Speed : Int
  Comment : String
  Command : Command
deriving DecidableEq, Repr

/-- Image holds a series of steps. -/
structure Image (R : Type) where
  Steps : List (Step R)
  Copies : Int
deriving DecidableEq, Repr

/-- The error values of the package: the two package-level variables and the
value built by `fmt.Errorf("unsupported command %v", cmd)`. -/
inductive Err where
  | ErrInvalidTool
  | ErrInvalidPower
  | Unsupported (cmd : Command)
deriving DecidableEq, Repr

section Builders

variable {R : Type} [LinearOrderedField R]

/-- Go's zero value `Step{}`: what a composite literal leaves in the fields it
does not name. -/
def Step.zero : Step R :=
  { X := 0, Y := 0, Z := 0, Rel := false, Active := false, Power := 0,
    Speed := 0, Comment := "", Command := CmdInvalid }

/-- Start a new, empty, Image. -/
def NewImage : Image R :=
  { Steps := [], Copies := 1 }

/-- Note adds a comment to the image stream. -/
def Image.Note (im : Image R) (note : String) : Image R :=
  { im with Steps := im.Steps ++ [{ (Step.zero : Step R) with Comment := note }] }

/-- SetSpeed sets the tool speed. -/
def Image.SetSpeed (im : Image R) (active : Bool) (speed : Int) : Image R :=
  { im with Steps := im.Steps ++
      [{ (Step.zero : Step R) with Speed := speed, Rel := true, Active := active }] }

/-- The unexported `moveXY`: a step with a destination (x, y). -/
def moveXY (x y : R) : Step R :=
  { (Step.zero : Step R) with X := x, Y := y }

/-- MoveXY relocates the tool head without the tool being active. -/
def Image.MoveXY (im : Image R) (x y : R) : Image R × Option Err :=
  ({ im with Steps := im.Steps ++ [moveXY x y] }, none)

/-- LineXY cuts a line to (x, y) with a power level in [0,100]. -/
def Image.LineXY (im : Image R) (x y power : R) : Image R × Option Err :=
  if power < 0 ∨ power > 100 then
    (im, some Err.ErrInvalidPower)
  else
    let s := moveXY x y
    let s := { s with Active := true }
    let s := { s with Power := power }
    ({ im with Steps := im.Steps ++ [s] }, none)

/-- Raise increases the relative Z value without any line drawn. -/
def Image.Raise (im : Image R) (dz : R) : Image R × Option Err :=
  if dz = 0 then
    (im, none)
  else
    ({ im with Steps := im.Steps ++ [{ (Step.zero : Step R) with Z := dz, Rel := true }] }, none)

/-- Drill increases the relative Z value while drawing. -/
def Image.Drill (im : Image R) (dz power : R) : Image R × Option Err :=
  if dz = 0 then
    (im, none)
  else
    ({ im with Steps := im.Steps ++
        [{ (Step.zero : Step R) with Z := dz, Power := power, Active := true, Rel := true }] },
      none)

/-- SetOrigin appends the origin-reset command step. -/
def Image.SetOrigin (im : Image R) : Image R × Option Err :=
  ({ im with Steps := im.Steps ++ [{ (Step.zero : Step R) with Command := CmdSetOrigin }] }, none)

end Builders

section Replay

variable {R : Type} [LinearOrderedField R] {σ ε : Type}

/-- Plotter is the interface to a 3D pen plotter: three methods acting on the
receiver state `σ` and returning an `error` of type `ε`. -/
structure Plotter (σ ε R : Type) where
  Command : Command → σ → σ × Option ε
  MoveTo : R → R → R → σ → σ × Option ε
  LineTo : R → R → R → σ → σ × Option ε

/-- The loop of `Image.Plot`, from the step it has reached, with the running
pen and the plotter state. -/
def plotSteps (p : Plotter σ ε R) : List (Step R) → R → R → R → σ → σ × Option ε
  | [], _, _, _, st => (st, none)
  | s :: rest, penX, penY, penZ, st =>
    if s.Comment ≠ "" then
      plotSteps p rest penX penY penZ st
    else if s.Command ≠ CmdInvalid then
      match p.Command s.Command st with
      | (st, some err) => (st, some err)
      | (st, none) => plotSteps p rest penX penY penZ st
    else if s.Rel then
      let penX := penX + s.X
      let penY := penY + s.Y
      let penZ := penZ + s.Z
      match p.MoveTo penX penY penZ st with
      | (st, some err) => (st, some err)
      | (st, none) => plotSteps p rest penX penY penZ st
    else
      let penX := s.X
      let penY := s.Y
      if s.Active then
        match p.LineTo penX penY penZ st with
        | (st, some err) => (st, some err)
        | (st, none) => plotSteps p rest penX penY penZ st
      else
        match p.MoveTo penX penY penZ st with
        | (st, some err) => (st, some err)
        | (st, none) => plotSteps p rest penX penY penZ st

/-- Plot executes the Image using the provided Plotter, whose receiver starts
in state `st`; the pen starts at (0, 0, 0). -/
def Image.Plot (im : Image R) (p : Plotter σ ε R) (st : σ) : σ × Option ε :=
  plotSteps p im.Steps 0 0 0 st

end Replay

section Recording

variable {R : Type} [LinearOrderedField R] {σ ε : Type}

/-- One call of the Plotter interface, with its arguments. -/
inductive Call (R : Type) where
  | Command (cmd : Command)
  | MoveTo (x y z : R)
  | LineTo (x y z : R)
deriving DecidableEq, Repr

/-- Invoke the method of `p` that the call names. -/
def Plotter.call (p : Plotter σ ε R) : Call R → σ → σ × Option ε
  | Call.Command cmd, st => p.Command cmd st
  | Call.MoveTo x y z, st => p.MoveTo x y z st
  | Call.LineTo x y z, st => p.LineTo x y z st

/-- A test double around `p`: every method appends the call and the error that
`p` answered to a log, and otherwise behaves as `p`. -/
def Plotter.recording (p : Plotter σ ε R) : Plotter (σ × List (Call R × Option ε)) ε R where
  Command := fun cmd st =>
    let r := p.Command cmd st.1
    ((r.1, st.2 ++ [(Call.Command cmd, r.2)]), r.2)
  MoveTo := fun x y z st =>
    let r := p.MoveTo x y z st.1
    ((r.1, st.2 ++ [(Call.MoveTo x y z, r.2)]), r.2)
  LineTo := fun x y z st =>
    let r := p.LineTo x y z st.1
    ((r.1, st.2 ++ [(Call.LineTo x y z, r.2)]), r.2)

/-- The calls, with the answers of `p`, that `Plot` dispatches to `p` started in `st`. -/
def Image.dispatched (im : Image R) (p : Plotter σ ε R) (st : σ) : List (Call R × Option ε) :=
  (im.Plot p.recording (st, [])).1.2

/-- A plotter without state whose methods all return nil. -/
def nullPlotter : Plotter Unit ε R where
  Command := fun _ st => (st, none)
  MoveTo := fun _ _ _ st => (st, none)
  LineTo := fun _ _ _ st => (st, none)

/-- The calls of the replay of `im` through a plotter that never fails. -/
def Image.calls (im : Image R) : List (Call R) :=
  (im.dispatched (nullPlotter : Plotter Unit Empty R) ()).map Prod.fst

/-- Feed a sequence of calls to a plotter, one after the other, ignoring the
returned errors. -/
def Plotter.feed (p : Plotter σ ε R) (cs : List (Call R)) (st : σ) : σ :=
  cs.foldl (fun st c => (p.call c st).1) st

end Recording

section BoundPlotter

variable {R : Type} [LinearOrderedField R]

/-- Bound accumulates the bounding box of what is plotted. -/
structure Bound (R : Type) where
  pts : Nat
  oX : R
  oY : R
  lastX : R
  lastY : R
  minX : R
  maxX : R
  minY : R
  maxY : R
deriving DecidableEq, Repr

/-- Go's `&Bound{}`. -/
def Bound.fresh : Bound R :=
  { pts := 0, oX := 0, oY := 0, lastX := 0, lastY := 0,
    minX := 0, maxX := 0, minY := 0, maxY := 0 }

/-- The method `(*Bound).Command`. -/
def Bound.Command (b : Bound R) (cmd : Command) : Bound R × Option Err :=
  if cmd = CmdSetOrigin then
    let b := { b with oX := b.lastX, oY := b.lastY }
    let b := { b with lastX := 0, lastY := 0 }
    (b, none)
  else
    (b, some (Err.Unsupported cmd))

/-- The method `(*Bound).MoveTo`. -/
def Bound.MoveTo (b : Bound R) (x y _z : R) : Bound R × Option Err :=
  let b := { b with lastX := b.oX + x, lastY := b.oY + y }
  let b := if b.pts = 0 ∨ b.lastX < b.minX then { b with minX := b.lastX } else b
  let b := if b.pts = 0 ∨ b.lastX > b.maxX then { b with maxX := b.lastX } else b
  let b := if b.pts = 0 ∨ b.lastY < b.minY then { b with minY := b.lastY } else b
  let b := if b.pts = 0 ∨ b.lastY > b.maxY then { b with maxY := b.lastY } else b
  ({ b with pts := b.pts + 1 }, none)

/-- The method `(*Bound).LineTo`. -/
def Bound.LineTo (b : Bound R) (x y z : R) : Bound R × Option Err :=
  b.MoveTo x y z

/-- Bound as a Plotter. -/
def Bound.plotter : Plotter (Bound R) Err R where
  Command := fun cmd b => b.Command cmd
  MoveTo := fun x y z b => b.MoveTo x y z
  LineTo := fun x y z b => b.LineTo x y z

/-- The points a Bound stores in (lastX, lastY), one per MoveTo or LineTo call
of the sequence, read from the receiver right after the call. -/
def Bound.recorded : List (Call R) → Bound R → List (R × R)
  | [], _ => []
  | Call.Command cmd :: cs, b => Bound.recorded cs (b.Command cmd).1
  | Call.MoveTo x y z :: cs, b =>
    ((b.MoveTo x y z).1.lastX, (b.MoveTo x y z).1.lastY) :: Bound.recorded cs (b.MoveTo x y z).1
  | Call.LineTo x y z :: cs, b =>
    ((b.LineTo x y z).1.lastX, (b.LineTo x y z).1.lastY) :: Bound.recorded cs (b.LineTo x y z).1

end BoundPlotter

section Calls

variable {R : Type} [LinearOrderedField R]

/-- One call of a builder method of Image, with its arguments. -/
inductive BuilderCall (R : Type) where
  | Note (note : String)
  | SetSpeed (active : Bool) (speed : Int)
  | MoveXY (x y : R)
  | LineXY (x y power : R)
  | Raise (dz : R)
  | Drill (dz power : R)
  | SetOrigin
deriving DecidableEq, Repr

/-- Invoke the builder method that the call names. -/
def Image.invoke (im : Image R) : BuilderCall R → Image R × Option Err
  | BuilderCall.Note note => (im.Note note, none)
  | BuilderCall.SetSpeed active speed => (im.SetSpeed active speed, none)
  | BuilderCall.MoveXY x y => im.MoveXY x y
  | BuilderCall.LineXY x y power => im.LineXY x y power
  | BuilderCall.Raise dz => im.Raise dz
  | BuilderCall.Drill dz power => im.Drill dz power
  | BuilderCall.SetOrigin => im.SetOrigin

/-- The Image after a sequence of builder calls, made one after the other
(returned errors do not stop the caller). -/
def Image.build (im : Image R) (cs : List (BuilderCall R)) : Image R :=
  cs.foldl (fun im c => (im.invoke c).1) im

end Calls

section Traces

variable {R : Type} [LinearOrderedField R] {σ ε : Type}

/-- The calls that the loop of `Plot` makes from a given step and pen when no
call fails (proof device: `plotSteps_recording` relates it to `plotSteps`). -/
def callsFrom : List (Step R) → R → R → R → List (Call R)
  | [], _, _, _ => []
  | s :: rest, penX, penY, penZ =>
    if s.Comment ≠ "" then callsFrom rest penX penY penZ
    else if s.Command ≠ CmdInvalid then Call.Command s.Command :: callsFrom rest penX penY penZ
    else if s.Rel then
      Call.MoveTo (penX + s.X) (penY + s.Y) (penZ + s.Z) ::
        callsFrom rest (penX + s.X) (penY + s.Y) (penZ + s.Z)
    else if s.Active then Call.LineTo s.X s.Y penZ :: callsFrom rest s.X s.Y penZ
    else Call.MoveTo s.X s.Y penZ :: callsFrom rest s.X s.Y penZ

/-- Make the calls of a list one after the other, logging each with its answer,
and stop at the first that returns an error (proof device). -/
def runCalls (p : Plotter σ ε R) :
    List (Call R) → σ → List (Call R × Option ε) → (σ × List (Call R × Option ε)) × Option ε
  | [], st, log => ((st, log), none)
  | c :: cs, st, log =>
    match (p.call c st).2 with
    | some err => (((p.call c st).1, log ++ [(c, some err)]), some err)
    | none => runCalls p cs (p.call c st).1 (log ++ [(c, none)])

end Traces

section Rules

variable {R : Type}

/-- The rule of the replay engine for one step without comment and the call made
for it: which method, and for a command which argument. -/
def Dispatches (s : Step R) (c : Call R) : Prop :=
  (s.Command ≠ CmdInvalid → c = Call.Command s.Command) ∧
  (s.Command = CmdInvalid → s.Rel = true → ∃ x y z, c = Call.MoveTo x y z) ∧
  (s.Command = CmdInvalid → s.Rel = false → s.Active = true → ∃ x y z, c = Call.LineTo x y z) ∧
  (s.Command = CmdInvalid → s.Rel = false → s.Active = false → ∃ x y z, c = Call.MoveTo x y z)

/-- Whether a call is a MoveTo or a LineTo. -/
def Call.isMove : Call R → Bool
  | Call.Command _ => false
  | Call.MoveTo _ _ _ => true
  | Call.LineTo _ _ _ => true

end Rules

section Invariants

variable {R : Type} [LinearOrderedField R]

/-- The box of `b` is the one spanned by the points of `pts` (proof device: the
invariant of a Bound along a sequence of calls). -/
def Bound.Spans (b : Bound R) (pts : List (R × R)) : Prop :=
  b.pts = pts.length ∧
    (pts ≠ [] →
      (pts.map Prod.fst).minimum = (b.minX : WithTop R) ∧
      (pts.map Prod.fst).maximum = (b.maxX : WithBot R) ∧
      (pts.map Prod.snd).minimum = (b.minY : WithTop R) ∧
      (pts.map Prod.snd).maximum = (b.maxY : WithBot R))

end Invariants

section CallKinds

variable {R : Type} [LinearOrderedField R]

/-- Whether a builder call is a Raise or a Drill with dz == 0. -/
def BuilderCall.zeroDelta : BuilderCall R → Bool
  | BuilderCall.Raise dz => decide (dz = 0)
  | BuilderCall.Drill dz _ => decide (dz = 0)
  | _ => false

/-- Whether a builder call is a LineXY with a power outside [0, 100]. -/
def BuilderCall.badPower : BuilderCall R → Bool
  | BuilderCall.LineXY _ _ power => decide (power < 0 ∨ power > 100)
  | _ => false

/-- The steps that a builder call appends to the log, whatever the log holds
(proof device: `invoke_steps` relates it to the builder methods). -/
def BuilderCall.appended (c : BuilderCall R) : List (Step R) :=
  ((NewImage : Image R).invoke c).1.Steps

end CallKinds

section Preview

variable {R : Type} [LinearOrderedField R]

/-- The arguments that MakeRGBA gives to the external `geom.NewSimilarity`:
the point mapped from, the point mapped to, the scale and the rotation. -/
structure Similarity (R : Type) where
  fromX : R
  fromY : R
  toX : R
  toY : R
  scale : R
  theta : R
deriving DecidableEq, Repr

/-- Modelled from the spec: the method `Apply` of the external
`geom.Similarity`, which is not part of the repository; the transform is taken
as p -> (toX, toY) + scale * (p - (fromX, fromY)), the rotation being fixed at 0
by MakeRGBA. -/
def Similarity.Apply (s : Similarity R) (x y : R) : R × R :=
  (s.toX + s.scale * (x - s.fromX), s.toY + s.scale * (y - s.fromY))

/-- An RGBA colour, as given to `Render`. -/
structure Color where
  r : Nat
  g : Nat
  b : Nat
  a : Nat
deriving DecidableEq, Repr

/-- One operation on the external `raster.Rasterizer`, which is modelled by the
log of the operations applied to it: the method `MoveTo`, the function
`raster.LineTo` (with its flag, end points and width), `Render` and `Reset`. -/
inductive RasterOp (R : Type) where
  | MoveTo (x y : R)
  | LineTo (flag : Bool) (x0 y0 x1 y1 width : R)
  | Render (c : Color)
  | Reset
deriving DecidableEq, Repr

/-- The unexported `plotter` of imager.go, which renders to a rasterizer. -/
structure plotter (R : Type) where
  dy : R
  sim : Similarity R
  r : List (RasterOp R)
  oX : R
  oY : R
  penX : R
  penY : R
  penZ : R
deriving DecidableEq, Repr

/-- The method `(*plotter).Command`. -/
def plotter.Command (p : plotter R) (cmd : Gcoder.Command) : plotter R × Option Err :=
  if cmd = CmdSetOrigin then
    let p := { p with oX := p.oX + p.penX }
    let p := { p with oY := p.oY + p.penY }
    let p := { p with penX := 0, penY := 0, penZ := 0 }
    (p, none)
  else
    (p, some (Err.Unsupported cmd))

/-- The method `(*plotter).MoveTo`. -/
def plotter.MoveTo (p : plotter R) (x y z : R) : plotter R × Option Err :=
  let pxy := p.sim.Apply (p.oX + x) (p.oY + y)
  let p := { p with r := p.r ++ [RasterOp.MoveTo pxy.1 (p.dy - pxy.2)] }
  let p := { p with penX := x, penY := y, penZ := z }
  (p, none)

/-- The method `(*plotter).LineTo`. -/
def plotter.LineTo (p : plotter R) (x y z : R) : plotter R × Option Err :=
  let penxy := p.sim.Apply (p.oX + p.penX) (p.oY + p.penY)
  let pxy := p.sim.Apply (p.oX + x) (p.oY + y)
  let p := { p with
    r := p.r ++ [RasterOp.LineTo true penxy.1 (p.dy - penxy.2) pxy.1 (p.dy - pxy.2) 1] }
  let p := { p with penX := x, penY := y, penZ := z }
  (p, none)

/-- The unexported plotter as a Plotter. -/
def plotter.toPlotter : Plotter (plotter R) Err R where
  Command := fun cmd p => p.Command cmd
  MoveTo := fun x y z p => p.MoveTo x y z
  LineTo := fun x y z p => p.LineTo x y z

/-- The outcome of MakeRGBA: `log.Fatalf` when the bounds pass fails, the
returned error when the plotting pass fails, and otherwise the plotter at the
end, whose rasterizer log holds the three render passes of the picture. -/
inductive MakeResult (R : Type) where
  | fatal (err : Err)
  | failed (err : Err)
  | image (p : plotter R)
deriving DecidableEq, Repr

/-- The part of MakeRGBA between the two passes: the margin of 4 on each side
of the measured box, the scale, and the plotter built from them. -/
def MakeRGBA.preview (bounds : Bound R) (width height : Int) : plotter R :=
  let bounds := { bounds with minX := bounds.minX - 4 }
  let bounds := { bounds with maxX := bounds.maxX + 4 }
  let bounds := { bounds with minY := bounds.minY - 4 }
  let bounds := { bounds with maxY := bounds.maxY + 4 }
  let scale := (width : R) / (bounds.maxX - bounds.minX)
  let alt := (height : R) / (bounds.maxY - bounds.minY)
  let scale := if scale > alt then alt else scale
  { dy := (height : R),
    sim := { fromX := 0.5 * (bounds.minX + bounds.maxX), fromY := 0.5 * (bounds.minY + bounds.maxY),
             toX := (width : R) / 2, toY := (height : R) / 2, scale := scale, theta := 0 },
    r := [], oX := 0, oY := 0, penX := 0, penY := 0, penZ := 0 }

/-- The end of MakeRGBA, as operations on the rasterizer: the render pass of
the path, then the two origin markers, each with its own render pass (the
target image and its white background belong to external packages). -/
def MakeRGBA.finish (p : plotter R) (height : Int) : plotter R :=
  let p := { p with r := p.r ++ [RasterOp.Render ⟨255, 0, 255, 255⟩] }
  let p := { p with r := p.r ++ [RasterOp.Reset] }
  let z := p.sim.Apply p.oX p.oY
  let zx := z.1
  let zy := (height : R) - z.2
  let p := { p with r := p.r ++ [RasterOp.LineTo true (zx - 4) (zy - 4) (zx + 4) (zy + 4) 1] }
  let p := { p with r := p.r ++ [RasterOp.LineTo true (zx - 4) (zy + 4) (zx + 4) (zy - 4) 1] }
  let p := { p with r := p.r ++ [RasterOp.Render ⟨255, 0, 0, 255⟩] }
  let p := { p with r := p.r ++ [RasterOp.Reset] }
  let z := p.sim.Apply 0 0
  let zx := z.1
  let zy := (height : R) - z.2
  let p := { p with r := p.r ++ [RasterOp.LineTo true (zx - 4) (zy - 4) (zx + 4) (zy + 4) 1] }
  let p := { p with r := p.r ++ [RasterOp.LineTo true (zx - 4) (zy + 4) (zx + 4) (zy - 4) 1] }
  { p with r := p.r ++ [RasterOp.Render ⟨0, 0, 0, 255⟩] }

/-- MakeRGBA makes the picture of an Image of size (width, height). -/
def MakeRGBA (g : Image R) (width height : Int) : MakeResult R :=
  match g.Plot Bound.plotter Bound.fresh with
  | (_, some err) => MakeResult.fatal err
  | (bounds, none) =>
    let p := MakeRGBA.preview bounds width height
    match g.Plot plotter.toPlotter p with
    | (_, some err) => MakeResult.failed err
    | (p, none) => MakeResult.image (MakeRGBA.finish p height)

/-- The points (oX + x, oY + y) that the unexported plotter gives to its
transform for the end point of each MoveTo or LineTo call of the sequence. -/
def plotter.transformed : List (Call R) → plotter R → List (R × R)
  | [], _ => []
  | Call.Command cmd :: cs, p => plotter.transformed cs (p.Command cmd).1
  | Call.MoveTo x y z :: cs, p => (p.oX + x, p.oY + y) :: plotter.transformed cs (p.MoveTo x y z).1
  | Call.LineTo x y z :: cs, p => (p.oX + x, p.oY + y) :: plotter.transformed cs (p.LineTo x y z).1

end Preview

section RunningPen

variable {R : Type} [LinearOrderedField R]

/-- The pen after a list of dispatched calls, from the pen before it: the
arguments of the last MoveTo or LineTo of the list, if there is one. -/
def penOf : R × R × R → List (Call R) → R × R × R
  | pen, [] => pen
  | pen, Call.Command _ :: cs => penOf pen cs
  | _, Call.MoveTo x y z :: cs => penOf (x, y, z) cs
  | _, Call.LineTo x y z :: cs => penOf (x, y, z) cs

/-- The running pen of a replay that has dispatched the calls `cs`: the
arguments of the last MoveTo or LineTo, and (0, 0, 0) when there is none. -/
def lastPen (cs : List (Call R)) : R × R × R :=
  penOf (0, 0, 0) cs

/-- Two Bounds that differ at most in their count of points, both having
recorded a point (proof device). -/
def Bound.SameBox (b c : Bound R) : Prop :=
  b.oX = c.oX ∧ b.oY = c.oY ∧ b.lastX = c.lastX ∧ b.lastY = c.lastY
    ∧ b.minX = c.minX ∧ b.maxX = c.maxX ∧ b.minY = c.minY ∧ b.maxY = c.maxY
    ∧ b.pts ≠ 0 ∧ c.pts ≠ 0

end RunningPen

section Resets

variable {R : Type}

/-- Whether, in a sequence of Plotter calls, every Command call other than
those before the first MoveTo or LineTo directly follows a MoveTo or LineTo;
`seen` tells whether a MoveTo or LineTo came before the sequence and `prev`
whether the call just before it was one. -/
def resetsFollowMoves : Bool → Bool → List (Call R) → Bool
  | _, _, [] => true
  | seen, prev, Call.Command _ :: cs => (!seen || prev) && resetsFollowMoves seen false cs
  | _, _, Call.MoveTo _ _ _ :: cs => resetsFollowMoves true true cs
  | _, _, Call.LineTo _ _ _ :: cs => resetsFollowMoves true true cs

end Resets

section Pointers

variable {R : Type} [LinearOrderedField R] {σ ε : Type}

/-- The header of a Go slice of type `[]*Step`: the address of its backing
array, its length and its capacity. -/
structure Slice where
  arr : Nat
  len : Nat
  cap : Nat
deriving DecidableEq, Repr

/-- The struct `Image` as it lies in memory: the slice header `Steps` and the
field `Copies`. -/
structure ImageStruct where
  Steps : Slice
  Copies : Int
deriving DecidableEq, Repr

/-- The memory that `Plot` reaches from its receiver `im *Image`: the Image
struct behind each `*Image`, the `*Step` stored at each index of each backing
array, and the Step struct behind each `*Step`.  Pointers are addresses; every
address holds a value (dereferencing nil, a panic in Go, is outside the
model). -/
structure Memory (R : Type) where
  images : Nat → ImageStruct
  arrays : Nat → Nat → Nat
  steps : Nat → Step R

/-- The Steps behind the elements of a slice, in order, as memory `m` holds
them. -/
def Memory.load (m : Memory R) (s : Slice) : List (Step R) :=
  (List.range s.len).map (fun i => m.steps (m.arrays s.arr i))

/-- The Image value that the pointer `im` denotes in memory `m`. -/
def Memory.image (m : Memory R) (im : Nat) : Image R :=
  { Steps := m.load (m.images im).Steps, Copies := (m.images im).Copies }

/-- A memory that holds the Image value `g` behind the pointer 0: the backing
array 0 holds the pointers 0, 1, 2, ... and the i-th Step of `g` lies behind the
pointer i. -/
def Memory.ofImage (g : Image R) : Memory R :=
  { images := fun _ =>
      { Steps := { arr := 0, len := g.Steps.length, cap := g.Steps.length }, Copies := g.Copies },
    arrays := fun _ i => i,
    steps := fun i => g.Steps.getD i Step.zero }

/-- Memory `m2` holds the Image behind `im` as memory `m` does: the same struct
(slice header and Copies), the same pointer in every element of the slice and
the same Step behind each of these pointers. -/
def Memory.SameImage (m m2 : Memory R) (im : Nat) : Prop :=
  m2.images im = m.images im
    ∧ ∀ j, j < (m.images im).Steps.len →
        m2.arrays (m.images im).Steps.arr j = m.arrays (m.images im).Steps.arr j
          ∧ m2.steps (m.arrays (m.images im).Steps.arr j)
              = m.steps (m.arrays (m.images im).Steps.arr j)

/-- The loop `for _, s := range im.Steps` of `(*Image).Plot`.  The program
state `w` is the memory together with the receiver of the Plotter, and the
methods of the Plotter act on all of it.  `range` has evaluated the slice header
once: `arr` is its backing array, `n` iterations remain and `i` is the next
index.  Each iteration loads the pointer `s` from the backing array and reads
the fields of `*s` from the memory as it is then. -/
def plotRange (p : Plotter (Memory R × σ) ε R) (arr : Nat) :
    Nat → Nat → R → R → R → Memory R × σ → (Memory R × σ) × Option ε
  | 0, _, _, _, _, w => (w, none)
  | n + 1, i, penX, penY, penZ, w =>
    let s := w.1.steps (w.1.arrays arr i)
    if s.Comment ≠ "" then
      plotRange p arr n (i + 1) penX penY penZ w
    else if s.Command ≠ CmdInvalid then
      match p.Command s.Command w with
      | (w, some err) => (w, some err)
      | (w, none) => plotRange p arr n (i + 1) penX penY penZ w
    else if s.Rel then
      let penX := penX + s.X
      let penY := penY + s.Y
      let penZ := penZ + s.Z
      match p.MoveTo penX penY penZ w with
      | (w, some err) => (w, some err)
      | (w, none) => plotRange p arr n (i + 1) penX penY penZ w
    else
      let penX := s.X
      let penY := s.Y
      if s.Active then
        match p.LineTo penX penY penZ w with
        | (w, some err) => (w, some err)
        | (w, none) => plotRange p arr n (i + 1) penX penY penZ w
      else
        match p.MoveTo penX penY penZ w with
        | (w, some err) => (w, some err)
        | (w, none) => plotRange p arr n (i + 1) penX penY penZ w

/-- The method `(*Image).Plot` on the pointer `im`, in the program state `w`:
the pen starts at (0, 0, 0) and the loop ranges over the slice `im.Steps` as it
is when the loop starts. -/
def PlotPtr (im : Nat) (p : Plotter (Memory R × σ) ε R) (w : Memory R × σ) :
    (Memory R × σ) × Option ε :=
  plotRange p (w.1.images im).Steps.arr (w.1.images im).Steps.len 0 0 0 0 w

/-- A test double around a Plotter that acts on the program state: every method
appends the call and the error that `p` answered to a log kept next to the
receiver of `p`, and otherwise behaves as `p`. -/
def Plotter.recordingPtr (p : Plotter (Memory R × σ) ε R) :
    Plotter (Memory R × (σ × List (Call R × Option ε))) ε R where
  Command := fun cmd w =>
    let r := p.Command cmd (w.1, w.2.1)
    ((r.1.1, (r.1.2, w.2.2 ++ [(Call.Command cmd, r.2)])), r.2)
  MoveTo := fun x y z w =>
    let r := p.MoveTo x y z (w.1, w.2.1)
    ((r.1.1, (r.1.2, w.2.2 ++ [(Call.MoveTo x y z, r.2)])), r.2)
  LineTo := fun x y z w =>
    let r := p.LineTo x y z (w.1, w.2.1)
    ((r.1.1, (r.1.2, w.2.2 ++ [(Call.LineTo x y z, r.2)])), r.2)

/-- The calls, with the answers of `p`, that `Plot` on the pointer `im`
dispatches to `p` in the program state `w`. -/
def dispatchedPtr (im : Nat) (p : Plotter (Memory R × σ) ε R) (w : Memory R × σ) :
    List (Call R × Option ε) :=
  (PlotPtr im p.recordingPtr (w.1, (w.2, []))).1.2.2

/-- A Plotter whose methods touch only their receiver, in a program state that
consists of the memory and that receiver. -/
def Plotter.withMemory (p : Plotter σ ε R) : Plotter (Memory R × σ) ε R where
  Command := fun cmd w => ((w.1, (p.Command cmd w.2).1), (p.Command cmd w.2).2)
  MoveTo := fun x y z w => ((w.1, (p.MoveTo x y z w.2).1), (p.MoveTo x y z w.2).2)
  LineTo := fun x y z w => ((w.1, (p.LineTo x y z w.2).1), (p.LineTo x y z w.2).2)

/-- A Plotter that holds the `*Image` it is replayed over, a struct whose only
field is `im *Image` (no state of its own): its `MoveTo` assigns
`im.Steps = nil` and `im.Copies = 2` and returns nil, its other two methods only
return nil. -/
def scribbler (im : Nat) : Plotter (Memory R × Unit) Err R where
  Command := fun _ w => (w, none)
  MoveTo := fun _ _ _ w =>
    let m := w.1
    let g := m.images im
    let nilSteps : Slice := { arr := 0, len := 0, cap := 0 }
    let m := { m with images := Function.update m.images im { g with Steps := nilSteps } }
    let g := m.images im
    let m := { m with images := Function.update m.images im { g with Copies := 2 } }
    ((m, w.2), none)
  LineTo := fun _ _ _ w => (w, none)

end Pointers

/-! ## Lemmas on the replay loop -/

section ReplayLemmas

variable {R : Type} [LinearOrderedField R] {σ ε : Type}

omit [LinearOrderedField R] in
theorem recording_Command (p : Plotter σ ε R) (cmd : Command) (st : σ)
    (log : List (Call R × Option ε)) :
    p.recording.Command cmd (st, log)
      = (((p.Command cmd st).1, log ++ [(Call.Command cmd, (p.Command cmd st).2)]),
          (p.Command cmd st).2) := rfl

omit [LinearOrderedField R] in
theorem recording_MoveTo (p : Plotter σ ε R) (x y z : R) (st : σ)
    (log : List (Call R × Option ε)) :
    p.recording.MoveTo x y z (st, log)
      = (((p.MoveTo x y z st).1, log ++ [(Call.MoveTo x y z, (p.MoveTo x y z st).2)]),
          (p.MoveTo x y z st).2) := rfl

omit [LinearOrderedField R] in
theorem recording_LineTo (p : Plotter σ ε R) (x y z : R) (st : σ)
    (log : List (Call R × Option ε)) :
    p.recording.LineTo x y z (st, log)
      = (((p.LineTo x y z st).1, log ++ [(Call.LineTo x y z, (p.LineTo x y z st).2)]),
          (p.LineTo x y z st).2) := rfl

theorem plotSteps_recording (p : Plotter σ ε R) (steps : List (Step R)) (penX penY penZ : R)
    (st : σ) (log : List (Call R × Option ε)) :
    plotSteps p.recording steps penX penY penZ (st, log)
      = runCalls p (callsFrom steps penX penY penZ) st log := by
  induction steps generalizing penX penY penZ st log with
  | nil => simp [plotSteps, callsFrom, runCalls]
  | cons s rest ih =>
    by_cases h1 : s.Comment = ""
    · by_cases h2 : s.Command = CmdInvalid
      · by_cases h3 : s.Rel = true
        · rcases h : p.MoveTo (penX + s.X) (penY + s.Y) (penZ + s.Z) st with ⟨st1, _ | e⟩ <;>
            simp [plotSteps, callsFrom, runCalls, h1, h2, h3, recording_MoveTo, Plotter.call, h, ih]
        · by_cases h4 : s.Active = true
          · rcases h : p.LineTo s.X s.Y penZ st with ⟨st1, _ | e⟩ <;>
              simp [plotSteps, callsFrom, runCalls, h1, h2, h3, h4, recording_LineTo,
                Plotter.call, h, ih]
          · rcases h : p.MoveTo s.X s.Y penZ st with ⟨st1, _ | e⟩ <;>
              simp [plotSteps, callsFrom, runCalls, h1, h2, h3, h4, recording_MoveTo,
                Plotter.call, h, ih]
      · rcases h : p.Command s.Command st with ⟨st1, _ | e⟩ <;>
          simp [plotSteps, callsFrom, runCalls, h1, h2, recording_Command, Plotter.call, h, ih]
    · simp [plotSteps, callsFrom, h1, ih]

theorem plotSteps_eq_runCalls (p : Plotter σ ε R) (steps : List (Step R)) (penX penY penZ : R)
    (st : σ) (log : List (Call R × Option ε)) :
    plotSteps p steps penX penY penZ st
      = ((runCalls p (callsFrom steps penX penY penZ) st log).1.1,
         (runCalls p (callsFrom steps penX penY penZ) st log).2) := by
  induction steps generalizing penX penY penZ st log with
  | nil => simp [plotSteps, callsFrom, runCalls]
  | cons s rest ih =>
    by_cases h1 : s.Comment = ""
    · by_cases h2 : s.Command = CmdInvalid
      · by_cases h3 : s.Rel = true
        · rcases h : p.MoveTo (penX + s.X) (penY + s.Y) (penZ + s.Z) st with ⟨st1, _ | e⟩
          · simp [plotSteps, callsFrom, runCalls, h1, h2, h3, Plotter.call, h]
            exact ih _ _ _ _ _
          · simp [plotSteps, callsFrom, runCalls, h1, h2, h3, Plotter.call, h]
        · by_cases h4 : s.Active = true
          · rcases h : p.LineTo s.X s.Y penZ st with ⟨st1, _ | e⟩
            · simp [plotSteps, callsFrom, runCalls, h1, h2, h3, h4, Plotter.call, h]
              exact ih _ _ _ _ _
            · simp [plotSteps, callsFrom, runCalls, h1, h2, h3, h4, Plotter.call, h]
          · rcases h : p.MoveTo s.X s.Y penZ st with ⟨st1, _ | e⟩
            · simp [plotSteps, callsFrom, runCalls, h1, h2, h3, h4, Plotter.call, h]
              exact ih _ _ _ _ _
            · simp [plotSteps, callsFrom, runCalls, h1, h2, h3, h4, Plotter.call, h]
      · rcases h : p.Command s.Command st with ⟨st1, _ | e⟩
        · simp [plotSteps, callsFrom, runCalls, h1, h2, Plotter.call, h]
          exact ih _ _ _ _ _
        · simp [plotSteps, callsFrom, runCalls, h1, h2, Plotter.call, h]
    · simp [plotSteps, callsFrom, h1]
      exact ih _ _ _ _ _

omit [LinearOrderedField R] in
theorem runCalls_ok (p : Plotter σ ε R) (hp : ∀ c st, (p.call c st).2 = none)
    (cs : List (Call R)) (st : σ) (log : List (Call R × Option ε)) :
    (runCalls p cs st log).1.2 = log ++ cs.map (fun c => (c, none))
      ∧ (runCalls p cs st log).2 = none := by
  induction cs generalizing st log with
  | nil => simp [runCalls]
  | cons c cs ih =>
    have h := hp c st
    simp only [runCalls, h]
    have := ih (p.call c st).1 (log ++ [(c, none)])
    simpa using this

theorem dispatched_eq (im : Image R) (p : Plotter σ ε R) (st : σ) :
    im.dispatched p st = (runCalls p (callsFrom im.Steps 0 0 0) st []).1.2 := by
  simp [Image.dispatched, Image.Plot, plotSteps_recording]

theorem calls_eq (im : Image R) : im.calls = callsFrom im.Steps 0 0 0 := by
  have h := runCalls_ok (nullPlotter : Plotter Unit Empty R)
    (by intro c st; cases c <;> rfl) (callsFrom im.Steps 0 0 0) () []
  simp [Image.calls, dispatched_eq, h.1, Function.comp_def]

end ReplayLemmas

/-! ## The dispatch rule of Plot -/

section Dispatch

variable {R : Type} [LinearOrderedField R] {σ ε : Type}

theorem callsFrom_dispatches (steps : List (Step R)) (penX penY penZ : R) :
    List.Forall₂ (fun s c => Dispatches s c ∧ (s.Rel = true → ∀ x y z, c ≠ Call.LineTo x y z))
      (steps.filter (fun s => s.Comment = "")) (callsFrom steps penX penY penZ) := by
  induction steps generalizing penX penY penZ with
  | nil => simp [callsFrom]
  | cons s rest ih =>
    by_cases h1 : s.Comment = ""
    · by_cases h2 : s.Command = CmdInvalid
      · by_cases h3 : s.Rel = true
        · simp only [callsFrom, h1, h2, h3, List.filter_cons, decide_True, if_true, ne_eq,
            not_true_eq_false, if_false]
          exact List.Forall₂.cons (by simp [Dispatches, h2, h3]) (ih _ _ _)
        · by_cases h4 : s.Active = true
          · simp only [callsFrom, h1, h2, h3, h4, List.filter_cons, decide_True, if_true, ne_eq,
              not_true_eq_false, if_false]
            exact List.Forall₂.cons (by simp [Dispatches, h2, h3, h4]) (ih _ _ _)
          · simp only [callsFrom, h1, h2, h3, h4, List.filter_cons, decide_True, if_true, ne_eq,
              not_true_eq_false, if_false]
            exact List.Forall₂.cons (by simp [Dispatches, h2, h3, h4]) (ih _ _ _)
      · simp only [callsFrom, h1, h2, List.filter_cons, decide_True, if_true, ne_eq,
          not_true_eq_false, not_false_eq_true, if_false]
        exact List.Forall₂.cons (by simp [Dispatches, h2]) (ih _ _ _)
    · simp only [callsFrom, h1, List.filter_cons, decide_False, ne_eq, not_false_eq_true, if_true]
      exact ih _ _ _

end Dispatch

/-! ## Lemmas on Bound -/

section BoundLemmas

variable {R : Type} [LinearOrderedField R]

theorem Bound.MoveTo_eq (b : Bound R) (x y z : R) :
    b.MoveTo x y z =
      ({ pts := b.pts + 1, oX := b.oX, oY := b.oY, lastX := b.oX + x, lastY := b.oY + y,
         minX := if b.pts = 0 ∨ b.oX + x < b.minX then b.oX + x else b.minX,
         maxX := if b.pts = 0 ∨ b.oX + x > b.maxX then b.oX + x else b.maxX,
         minY := if b.pts = 0 ∨ b.oY + y < b.minY then b.oY + y else b.minY,
         maxY := if b.pts = 0 ∨ b.oY + y > b.maxY then b.oY + y else b.maxY }, none) := by
  unfold Bound.MoveTo
  dsimp only
  split_ifs <;> rfl

theorem Bound.Command_setOrigin (b : Bound R) :
    b.Command CmdSetOrigin =
      ({ b with oX := b.lastX, oY := b.lastY, lastX := 0, lastY := 0 }, none) := by
  simp [Bound.Command]

theorem Bound.Command_fields (b : Bound R) (cmd : Gcoder.Command) :
    (b.Command cmd).1.pts = b.pts ∧ (b.Command cmd).1.minX = b.minX
      ∧ (b.Command cmd).1.maxX = b.maxX ∧ (b.Command cmd).1.minY = b.minY
      ∧ (b.Command cmd).1.maxY = b.maxY := by
  unfold Bound.Command
  split_ifs <;> simp

theorem Bound.spans_command (b : Bound R) (pts : List (R × R)) (cmd : Gcoder.Command)
    (h : b.Spans pts) : (b.Command cmd).1.Spans pts := by
  obtain ⟨h1, h2, h3, h4, h5⟩ := Bound.Command_fields b cmd
  unfold Bound.Spans at *
  rw [h1, h2, h3, h4, h5]
  exact h

theorem Bound.spans_moveTo (b : Bound R) (pts : List (R × R)) (x y z : R)
    (h : b.Spans pts) : (b.MoveTo x y z).1.Spans (pts ++ [(b.oX + x, b.oY + y)]) := by
  rw [Bound.MoveTo_eq]
  obtain ⟨h0, hbox⟩ := h
  refine ⟨by simp [h0], fun _ => ?_⟩
  simp only [List.map_append, List.map_cons, List.map_nil, List.minimum_concat,
    List.maximum_concat]
  by_cases hp : pts = []
  · subst hp
    simp at h0
    simp [h0]
  · obtain ⟨hx, hX, hy, hY⟩ := hbox hp
    have hpos : b.pts ≠ 0 := by
      rw [h0]
      exact fun hl => hp (List.length_eq_zero.mp hl)
    rw [hx, hX, hy, hY]
    simp only [hpos, false_or, gt_iff_lt]
    refine ⟨?_, ?_, ?_, ?_⟩
    · rw [← WithTop.coe_min]
      congr 1
      split_ifs with hlt
      · exact min_eq_right hlt.le
      · exact min_eq_left (not_lt.mp hlt)
    · rw [← WithBot.coe_max]
      congr 1
      split_ifs with hlt
      · exact max_eq_right hlt.le
      · exact max_eq_left (not_lt.mp hlt)
    · rw [← WithTop.coe_min]
      congr 1
      split_ifs with hlt
      · exact min_eq_right hlt.le
      · exact min_eq_left (not_lt.mp hlt)
    · rw [← WithBot.coe_max]
      congr 1
      split_ifs with hlt
      · exact max_eq_right hlt.le
      · exact max_eq_left (not_lt.mp hlt)

theorem Bound.spans_feed (cs : List (Call R)) (b : Bound R) (pts : List (R × R))
    (h : b.Spans pts) :
    (Bound.plotter.feed cs b).Spans (pts ++ Bound.recorded cs b) := by
  induction cs generalizing b pts with
  | nil => simpa [Plotter.feed, Bound.recorded] using h
  | cons c cs ih =>
    cases c with
    | Command cmd =>
      have := ih _ _ (Bound.spans_command b pts cmd h)
      simpa [Plotter.feed, Bound.recorded, Plotter.call, Bound.plotter] using this
    | MoveTo x y z =>
      have := ih _ _ (Bound.spans_moveTo b pts x y z h)
      simpa [Plotter.feed, Bound.recorded, Plotter.call, Bound.plotter, Bound.MoveTo_eq]
        using this
    | LineTo x y z =>
      have := ih _ _ (Bound.spans_moveTo b pts x y z h)
      simpa [Plotter.feed, Bound.recorded, Plotter.call, Bound.plotter, Bound.LineTo,
        Bound.MoveTo_eq] using this

theorem Bound.recorded_length (cs : List (Call R)) (b : Bound R) :
    (Bound.recorded cs b).length = (cs.filter Call.isMove).length := by
  induction cs generalizing b with
  | nil => rfl
  | cons c cs ih => cases c <;> simp [Bound.recorded, Call.isMove, ih]

end BoundLemmas

/-! ## Lemmas on the abort rule -/

section AbortLemmas

variable {R : Type} {σ ε : Type}

theorem runCalls_spec (p : Plotter σ ε R) (cs : List (Call R)) (st : σ)
    (log : List (Call R × Option ε)) :
    ∃ l : List (Call R × Option ε),
      (runCalls p cs st log).1.2 = log ++ l
      ∧ l.map Prod.fst = cs.take l.length
      ∧ (∀ i c e, l[i]? = some (c, some e) →
          i + 1 = l.length ∧ (runCalls p cs st log).2 = some e)
      ∧ ((∀ d ∈ l, d.2 = none) → (runCalls p cs st log).2 = none ∧ l.map Prod.fst = cs) := by
  induction cs generalizing st log with
  | nil =>
    refine ⟨[], by simp [runCalls], by simp, ?_, ?_⟩
    · intro i c e h
      simp at h
    · intro _
      simp [runCalls]
  | cons c cs ih =>
    rcases h : (p.call c st).2 with _ | e
    · obtain ⟨l, h1, h2, h3, h4⟩ := ih (p.call c st).1 (log ++ [(c, none)])
      refine ⟨(c, none) :: l, ?_, ?_, ?_, ?_⟩
      · simp only [runCalls, h]
        rw [h1]
        simp
      · simp [h2]
      · intro i c1 e1 hi
        cases i with
        | zero => simp at hi
        | succ j =>
          have hj : l[j]? = some (c1, some e1) := by simpa using hi
          obtain ⟨ha, hb⟩ := h3 j c1 e1 hj
          refine ⟨by simp [ha], ?_⟩
          simp only [runCalls, h]
          exact hb
      · intro hall
        have hall2 : ∀ d ∈ l, d.2 = none := fun d hd => hall d (List.mem_cons_of_mem _ hd)
        obtain ⟨ha, hb⟩ := h4 hall2
        refine ⟨?_, by simp [hb]⟩
        simp only [runCalls, h]
        exact ha
    · refine ⟨[(c, some e)], ?_, by simp, ?_, ?_⟩
      · simp [runCalls, h]
      · intro i c1 e1 hi
        cases i with
        | zero =>
          have : e = e1 := by
            have h2 : c = c1 ∧ e = e1 := by simpa using hi
            exact h2.2
          subst this
          simp [runCalls, h]
        | succ j => simp at hi
      · intro hall
        have := hall (c, some e) (by simp)
        simp at this

end AbortLemmas

section Transparency

variable {R : Type} [LinearOrderedField R] {σ ε : Type}

theorem plot_recording (im : Image R) (p : Plotter σ ε R) (st : σ) :
    (im.Plot p.recording (st, [])).1.1 = (im.Plot p st).1
      ∧ (im.Plot p.recording (st, [])).2 = (im.Plot p st).2 := by
  simp only [Image.Plot, plotSteps_recording]
  rw [plotSteps_eq_runCalls p im.Steps 0 0 0 st []]
  exact ⟨rfl, rfl⟩

theorem plot_result (im : Image R) (p : Plotter σ ε R) (st : σ) :
    (im.Plot p st).2 = (runCalls p (callsFrom im.Steps 0 0 0) st []).2 := by
  simp only [Image.Plot]
  rw [plotSteps_eq_runCalls p im.Steps 0 0 0 st []]

end Transparency

/-! ## Lemmas on the builders -/

section BuilderLemmas

variable {R : Type} [LinearOrderedField R] {σ ε : Type}

theorem invoke_steps (im : Image R) (c : BuilderCall R) :
    (im.invoke c).1.Steps = im.Steps ++ c.appended
      ∧ (im.invoke c).1.Copies = im.Copies := by
  cases c with
  | Note note => simp [Image.invoke, BuilderCall.appended, Image.Note, NewImage]
  | SetSpeed active speed => simp [Image.invoke, BuilderCall.appended, Image.SetSpeed, NewImage]
  | MoveXY x y => simp [Image.invoke, BuilderCall.appended, Image.MoveXY, NewImage]
  | LineXY x y power =>
    by_cases h : power < 0 ∨ power > 100 <;>
      simp [Image.invoke, BuilderCall.appended, Image.LineXY, NewImage, h]
  | Raise dz =>
    by_cases h : dz = 0 <;> simp [Image.invoke, BuilderCall.appended, Image.Raise, NewImage, h]
  | Drill dz power =>
    by_cases h : dz = 0 <;> simp [Image.invoke, BuilderCall.appended, Image.Drill, NewImage, h]
  | SetOrigin => simp [Image.invoke, BuilderCall.appended, Image.SetOrigin, NewImage]

theorem build_steps (im : Image R) (cs : List (BuilderCall R)) :
    (im.build cs).Steps = im.Steps ++ cs.flatMap BuilderCall.appended
      ∧ (im.build cs).Copies = im.Copies := by
  induction cs generalizing im with
  | nil => simp [Image.build]
  | cons c cs ih =>
    have h := ih (im.invoke c).1
    have hc := invoke_steps im c
    simp only [Image.build, List.foldl_cons] at h ⊢
    rw [h.1, h.2, hc.1, hc.2]
    simp

theorem appended_of_skipped (c : BuilderCall R)
    (h : (!c.zeroDelta && !c.badPower) = false) : c.appended = [] := by
  cases c with
  | LineXY x y power =>
    have hp : power < 0 ∨ power > 100 := by
      by_contra hc
      simp [BuilderCall.zeroDelta, BuilderCall.badPower, hc] at h
    simp [BuilderCall.appended, Image.invoke, Image.LineXY, NewImage, hp]
  | Raise dz =>
    have hz : dz = 0 := by simpa [BuilderCall.zeroDelta, BuilderCall.badPower] using h
    simp [BuilderCall.appended, Image.invoke, Image.Raise, NewImage, hz]
  | Drill dz power =>
    have hz : dz = 0 := by simpa [BuilderCall.zeroDelta, BuilderCall.badPower] using h
    simp [BuilderCall.appended, Image.invoke, Image.Drill, NewImage, hz]
  | Note note => simp [BuilderCall.zeroDelta, BuilderCall.badPower] at h
  | SetSpeed active speed => simp [BuilderCall.zeroDelta, BuilderCall.badPower] at h
  | MoveXY x y => simp [BuilderCall.zeroDelta, BuilderCall.badPower] at h
  | SetOrigin => simp [BuilderCall.zeroDelta, BuilderCall.badPower] at h

theorem appended_of_kept (c : BuilderCall R)
    (h : (!c.zeroDelta && !c.badPower) = true) : ∃ s, c.appended = [s] := by
  apply List.length_eq_one.mp
  cases c with
  | LineXY x y power =>
    have hp : ¬ (power < 0 ∨ power > 100) := by
      intro hc
      simp [BuilderCall.zeroDelta, BuilderCall.badPower, hc] at h
    simp [BuilderCall.appended, Image.invoke, Image.LineXY, NewImage, hp]
  | Raise dz =>
    have hz : ¬ dz = 0 := by simpa [BuilderCall.zeroDelta, BuilderCall.badPower] using h
    simp [BuilderCall.appended, Image.invoke, Image.Raise, NewImage, hz]
  | Drill dz power =>
    have hz : ¬ dz = 0 := by simpa [BuilderCall.zeroDelta, BuilderCall.badPower] using h
    simp [BuilderCall.appended, Image.invoke, Image.Drill, NewImage, hz]
  | Note note => simp [BuilderCall.appended, Image.invoke, Image.Note, NewImage]
  | SetSpeed active speed => simp [BuilderCall.appended, Image.invoke, Image.SetSpeed, NewImage]
  | MoveXY x y => simp [BuilderCall.appended, Image.invoke, Image.MoveXY, NewImage]
  | SetOrigin => simp [BuilderCall.appended, Image.invoke, Image.SetOrigin, NewImage]

theorem kept_forall₂ (cs : List (BuilderCall R)) :
    List.Forall₂ (fun c s => ∀ im : Image R, (im.invoke c).1.Steps = im.Steps ++ [s])
      (cs.filter (fun c => !c.zeroDelta && !c.badPower)) (cs.flatMap BuilderCall.appended) := by
  induction cs with
  | nil => simp
  | cons c cs ih =>
    rcases hk : (!c.zeroDelta && !c.badPower) with _ | _
    · have h0 := appended_of_skipped c hk
      simp only [List.filter_cons, hk, List.flatMap_cons, h0, List.nil_append]
      exact ih
    · obtain ⟨s, hs⟩ := appended_of_kept c hk
      simp only [List.filter_cons, hk, List.flatMap_cons, hs, if_true, List.singleton_append]
      refine List.Forall₂.cons ?_ ih
      intro im
      rw [(invoke_steps im c).1, hs]

theorem callsFrom_skip (l1 l2 : List (Step R)) (s : Step R) (hs : s.Comment ≠ "")
    (penX penY penZ : R) :
    callsFrom (l1 ++ s :: l2) penX penY penZ = callsFrom (l1 ++ l2) penX penY penZ := by
  induction l1 generalizing penX penY penZ with
  | nil => simp [callsFrom, hs]
  | cons t l1 ih => simp [callsFrom, ih]

theorem plot_congr (im1 im2 : Image R) (h : callsFrom im1.Steps 0 0 0 = callsFrom im2.Steps 0 0 0)
    (p : Plotter σ ε R) (st : σ) :
    im1.Plot p st = im2.Plot p st := by
  simp only [Image.Plot]
  rw [plotSteps_eq_runCalls p im1.Steps 0 0 0 st [], plotSteps_eq_runCalls p im2.Steps 0 0 0 st [], h]

end BuilderLemmas

/-! ## Lemmas on whole replays -/

section WholeReplay

variable {R : Type} [LinearOrderedField R] {σ ε : Type}

theorem plotSteps_ok (p : Plotter σ ε R)
    (hC : ∀ st, (p.Command CmdSetOrigin st).2 = none)
    (hM : ∀ x y z st, (p.MoveTo x y z st).2 = none)
    (hL : ∀ x y z st, (p.LineTo x y z st).2 = none)
    (steps : List (Step R))
    (hs : ∀ s ∈ steps, s.Command = CmdInvalid ∨ s.Command = CmdSetOrigin)
    (penX penY penZ : R) (st : σ) :
    (plotSteps p steps penX penY penZ st).2 = none := by
  induction steps generalizing penX penY penZ st with
  | nil => simp [plotSteps]
  | cons s rest ih =>
    have hrest : ∀ t ∈ rest, t.Command = CmdInvalid ∨ t.Command = CmdSetOrigin :=
      fun t ht => hs t (List.mem_cons_of_mem _ ht)
    by_cases h1 : s.Comment = ""
    · by_cases h2 : s.Command = CmdInvalid
      · by_cases h3 : s.Rel = true
        · have hm := hM (penX + s.X) (penY + s.Y) (penZ + s.Z) st
          rcases h : p.MoveTo (penX + s.X) (penY + s.Y) (penZ + s.Z) st with ⟨st1, _ | e⟩
          · simp [plotSteps, h1, h2, h3, h, ih hrest]
          · simp [h] at hm
        · by_cases h4 : s.Active = true
          · have hm := hL s.X s.Y penZ st
            rcases h : p.LineTo s.X s.Y penZ st with ⟨st1, _ | e⟩
            · simp [plotSteps, h1, h2, h3, h4, h, ih hrest]
            · simp [h] at hm
          · have hm := hM s.X s.Y penZ st
            rcases h : p.MoveTo s.X s.Y penZ st with ⟨st1, _ | e⟩
            · simp [plotSteps, h1, h2, h3, h4, h, ih hrest]
            · simp [h] at hm
      · have h5 : s.Command = CmdSetOrigin := by
          rcases hs s (List.mem_cons_self _ _) with h | h
          · exact absurd h h2
          · exact h
        have hm := hC st
        rcases h : p.Command CmdSetOrigin st with ⟨st1, _ | e⟩
        · have hne : CmdSetOrigin ≠ CmdInvalid := by decide
          simp [plotSteps, h1, h5, hne, h, ih hrest]
        · simp [h] at hm
    · simp [plotSteps, h1, ih hrest]

theorem appended_command (c : BuilderCall R) :
    ∀ s ∈ c.appended, s.Command = CmdInvalid ∨ s.Command = CmdSetOrigin := by
  intro s hs
  cases c with
  | Note note =>
    simp [BuilderCall.appended, Image.invoke, Image.Note, NewImage, Step.zero] at hs
    simp [hs]
  | SetSpeed active speed =>
    simp [BuilderCall.appended, Image.invoke, Image.SetSpeed, NewImage, Step.zero] at hs
    simp [hs]
  | MoveXY x y =>
    simp [BuilderCall.appended, Image.invoke, Image.MoveXY, NewImage, Step.zero, moveXY] at hs
    simp [hs]
  | LineXY x y power =>
    by_cases h : power < 0 ∨ power > 100
    · simp [BuilderCall.appended, Image.invoke, Image.LineXY, NewImage, h] at hs
    · simp [BuilderCall.appended, Image.invoke, Image.LineXY, NewImage, h, Step.zero, moveXY] at hs
      simp [hs]
  | Raise dz =>
    by_cases h : dz = 0
    · simp [BuilderCall.appended, Image.invoke, Image.Raise, NewImage, h] at hs
    · simp [BuilderCall.appended, Image.invoke, Image.Raise, NewImage, h, Step.zero] at hs
      simp [hs]
  | Drill dz power =>
    by_cases h : dz = 0
    · simp [BuilderCall.appended, Image.invoke, Image.Drill, NewImage, h] at hs
    · simp [BuilderCall.appended, Image.invoke, Image.Drill, NewImage, h, Step.zero] at hs
      simp [hs]
  | SetOrigin =>
    simp [BuilderCall.appended, Image.invoke, Image.SetOrigin, NewImage, Step.zero] at hs
    simp [hs]

theorem build_command (cs : List (BuilderCall R)) :
    ∀ s ∈ ((NewImage : Image R).build cs).Steps,
      s.Command = CmdInvalid ∨ s.Command = CmdSetOrigin := by
  intro s hs
  rw [(build_steps _ _).1] at hs
  simp only [NewImage, List.nil_append, List.mem_flatMap] at hs
  obtain ⟨c, _, hc⟩ := hs
  exact appended_command c s hc

theorem plotSteps_bound_unsupported (steps : List (Step R))
    (h : ∃ s ∈ steps, s.Comment = "" ∧ s.Command ≠ CmdInvalid ∧ s.Command ≠ CmdSetOrigin)
    (penX penY penZ : R) (b : Bound R) :
    (plotSteps Bound.plotter steps penX penY penZ b).2 ≠ none := by
  induction steps generalizing penX penY penZ b with
  | nil =>
    obtain ⟨s, hs, _⟩ := h
    exact absurd hs (List.not_mem_nil s)
  | cons s rest ih =>
    by_cases h1 : s.Comment = ""
    · by_cases h2 : s.Command = CmdInvalid
      · have hrest : ∃ t ∈ rest, t.Comment = "" ∧ t.Command ≠ CmdInvalid
            ∧ t.Command ≠ CmdSetOrigin := by
          obtain ⟨t, ht, hc, hi, ho⟩ := h
          rcases List.mem_cons.mp ht with rfl | ht
          · exact absurd h2 hi
          · exact ⟨t, ht, hc, hi, ho⟩
        by_cases h3 : s.Rel = true
        · simpa [plotSteps, h1, h2, h3, Bound.plotter, Bound.MoveTo_eq] using ih hrest _ _ _ _
        · by_cases h4 : s.Active = true
          · simpa [plotSteps, h1, h2, h3, h4, Bound.plotter, Bound.LineTo, Bound.MoveTo_eq]
              using ih hrest _ _ _ _
          · simpa [plotSteps, h1, h2, h3, h4, Bound.plotter, Bound.MoveTo_eq]
              using ih hrest _ _ _ _
      · by_cases h5 : s.Command = CmdSetOrigin
        · have hrest : ∃ t ∈ rest, t.Comment = "" ∧ t.Command ≠ CmdInvalid
              ∧ t.Command ≠ CmdSetOrigin := by
            obtain ⟨t, ht, hc, hi, ho⟩ := h
            rcases List.mem_cons.mp ht with rfl | ht
            · exact absurd h5 ho
            · exact ⟨t, ht, hc, hi, ho⟩
          simpa [plotSteps, h1, h2, h5, Bound.plotter, Bound.Command_setOrigin]
            using ih hrest _ _ _ _
        · simp [plotSteps, h1, h2, h5, Bound.plotter, Bound.Command]
    · have hrest : ∃ t ∈ rest, t.Comment = "" ∧ t.Command ≠ CmdInvalid
          ∧ t.Command ≠ CmdSetOrigin := by
        obtain ⟨t, ht, hc, hi, ho⟩ := h
        rcases List.mem_cons.mp ht with rfl | ht
        · exact absurd hc h1
        · exact ⟨t, ht, hc, hi, ho⟩
      simpa [plotSteps, h1] using ih hrest _ _ _ _

end WholeReplay

section RunLemmas

variable {R : Type} {σ ε : Type}

theorem runCalls_invariant (p : Plotter σ ε R) (P : σ → Prop)
    (hP : ∀ c st, P st → P (p.call c st).1) (cs : List (Call R)) (st : σ)
    (log : List (Call R × Option ε)) (h : P st) :
    P (runCalls p cs st log).1.1 := by
  induction cs generalizing st log with
  | nil => simpa [runCalls] using h
  | cons c cs ih =>
    rcases hc : (p.call c st).2 with _ | e
    · simp only [runCalls, hc]
      exact ih _ _ (hP c st h)
    · simp only [runCalls, hc]
      exact hP c st h

theorem runCalls_bisim {σ1 σ2 : Type} (p1 : Plotter σ1 ε R) (p2 : Plotter σ2 ε R)
    (Rel : σ1 → σ2 → Prop)
    (hstep : ∀ c s1 s2, Rel s1 s2 →
      (p1.call c s1).2 = (p2.call c s2).2 ∧ Rel (p1.call c s1).1 (p2.call c s2).1)
    (cs : List (Call R)) (st1 : σ1) (st2 : σ2) (log : List (Call R × Option ε))
    (h : Rel st1 st2) :
    (runCalls p1 cs st1 log).1.2 = (runCalls p2 cs st2 log).1.2
      ∧ (runCalls p1 cs st1 log).2 = (runCalls p2 cs st2 log).2
      ∧ Rel (runCalls p1 cs st1 log).1.1 (runCalls p2 cs st2 log).1.1 := by
  induction cs generalizing st1 st2 log with
  | nil => simpa [runCalls] using h
  | cons c cs ih =>
    obtain ⟨ha, hr⟩ := hstep c st1 st2 h
    rcases hc : (p1.call c st1).2 with _ | e
    · have hc2 : (p2.call c st2).2 = none := by rw [← ha, hc]
      simp only [runCalls, hc, hc2]
      exact ih _ _ _ hr
    · have hc2 : (p2.call c st2).2 = some e := by rw [← ha, hc]
      simp only [runCalls, hc, hc2]
      exact ⟨trivial, trivial, hr⟩

end RunLemmas

section BoxLemmas

variable {R : Type} [LinearOrderedField R]

theorem Bound.call_ordered (c : Call R) (b : Bound R)
    (h : b.minX ≤ b.maxX ∧ b.minY ≤ b.maxY) :
    (Bound.plotter.call c b).1.minX ≤ (Bound.plotter.call c b).1.maxX
      ∧ (Bound.plotter.call c b).1.minY ≤ (Bound.plotter.call c b).1.maxY := by
  have key : ∀ x y z : R, (b.MoveTo x y z).1.minX ≤ (b.MoveTo x y z).1.maxX
      ∧ (b.MoveTo x y z).1.minY ≤ (b.MoveTo x y z).1.maxY := by
    intro x y z
    rw [Bound.MoveTo_eq]
    by_cases hp : b.pts = 0
    · simp [hp]
    · simp only [hp, false_or]
      constructor
      · split_ifs <;> linarith [h.1]
      · split_ifs <;> linarith [h.2]
  cases c with
  | Command cmd =>
    obtain ⟨_, h2, h3, h4, h5⟩ := Bound.Command_fields b cmd
    simp only [Plotter.call, Bound.plotter]
    rw [h2, h3, h4, h5]
    exact h
  | MoveTo x y z => exact key x y z
  | LineTo x y z => exact key x y z

theorem Bound.plot_ordered (im : Image R) :
    (im.Plot Bound.plotter Bound.fresh).1.minX ≤ (im.Plot Bound.plotter Bound.fresh).1.maxX
      ∧ (im.Plot Bound.plotter Bound.fresh).1.minY
          ≤ (im.Plot Bound.plotter Bound.fresh).1.maxY := by
  simp only [Image.Plot]
  rw [plotSteps_eq_runCalls Bound.plotter im.Steps 0 0 0 Bound.fresh []]
  exact runCalls_invariant Bound.plotter (fun b => b.minX ≤ b.maxX ∧ b.minY ≤ b.maxY)
    (fun c st h => Bound.call_ordered c st h) _ _ _ (by simp [Bound.fresh])

end BoxLemmas

/-! ## Lemmas on the running pen -/

section PenLemmas

variable {R : Type} [LinearOrderedField R] {σ ε : Type}

omit [LinearOrderedField R] in
theorem penOf_append (pen : R × R × R) (a b : List (Call R)) :
    penOf pen (a ++ b) = penOf (penOf pen a) b := by
  induction a generalizing pen with
  | nil => rfl
  | cons c a ih => cases c <;> simp [penOf, ih]

theorem callsFrom_append (l1 l2 : List (Step R)) (penX penY penZ : R) :
    callsFrom (l1 ++ l2) penX penY penZ
      = callsFrom l1 penX penY penZ
        ++ callsFrom l2 (penOf (penX, penY, penZ) (callsFrom l1 penX penY penZ)).1
            (penOf (penX, penY, penZ) (callsFrom l1 penX penY penZ)).2.1
            (penOf (penX, penY, penZ) (callsFrom l1 penX penY penZ)).2.2 := by
  induction l1 generalizing penX penY penZ with
  | nil => simp [callsFrom, penOf]
  | cons s rest ih =>
    by_cases h1 : s.Comment = ""
    · by_cases h2 : s.Command = CmdInvalid
      · by_cases h3 : s.Rel = true
        · simp [callsFrom, h1, h2, h3, penOf, ih]
        · by_cases h4 : s.Active = true
          · simp [callsFrom, h1, h2, h3, h4, penOf, ih]
          · simp [callsFrom, h1, h2, h3, h4, penOf, ih]
      · simp [callsFrom, h1, h2, penOf, ih]
    · simp [callsFrom, h1, ih]

theorem callsFrom_length (l : List (Step R)) (penX penY penZ : R) :
    (callsFrom l penX penY penZ).length = (l.filter (fun t => t.Comment = "")).length := by
  induction l generalizing penX penY penZ with
  | nil => simp [callsFrom]
  | cons s rest ih =>
    by_cases h1 : s.Comment = ""
    · by_cases h2 : s.Command = CmdInvalid
      · by_cases h3 : s.Rel = true
        · simp [callsFrom, h1, h2, h3, ih]
        · by_cases h4 : s.Active = true
          · simp [callsFrom, h1, h2, h3, h4, ih]
          · simp [callsFrom, h1, h2, h3, h4, ih]
      · simp [callsFrom, h1, h2, ih]
    · simp [callsFrom, h1, ih]

theorem penOf_callsFrom_z (l : List (Step R)) (penX penY penZ : R) :
    (penOf (penX, penY, penZ) (callsFrom l penX penY penZ)).2.2
      = penZ + ((l.filter (fun t => t.Comment = "" ∧ t.Command = CmdInvalid ∧ t.Rel = true)).map
          Step.Z).sum := by
  induction l generalizing penX penY penZ with
  | nil => simp [callsFrom, penOf]
  | cons s rest ih =>
    by_cases h1 : s.Comment = ""
    · by_cases h2 : s.Command = CmdInvalid
      · by_cases h3 : s.Rel = true
        · simp [callsFrom, h1, h2, h3, penOf, ih, add_assoc]
        · by_cases h4 : s.Active = true
          · simp [callsFrom, h1, h2, h3, h4, penOf, ih]
          · simp [callsFrom, h1, h2, h3, h4, penOf, ih]
      · simp [callsFrom, h1, h2, penOf, ih]
    · simp [callsFrom, h1, ih]

omit [LinearOrderedField R] in
theorem runCalls_state_of_none (p : Plotter σ ε R) (cs : List (Call R)) (st : σ)
    (log : List (Call R × Option ε)) (h : (runCalls p cs st log).2 = none) :
    (runCalls p cs st log).1.1 = p.feed cs st := by
  induction cs generalizing st log with
  | nil => simp [runCalls, Plotter.feed]
  | cons c cs ih =>
    rcases hc : (p.call c st).2 with _ | e
    · simp only [runCalls, hc] at h ⊢
      simpa [Plotter.feed] using ih _ _ h
    · simp [runCalls, hc] at h

theorem plot_state_of_none (im : Image R) (p : Plotter σ ε R) (st : σ)
    (h : (im.Plot p st).2 = none) :
    (im.Plot p st).1 = p.feed im.calls st := by
  rw [plot_result] at h
  rw [calls_eq]
  simp only [Image.Plot]
  rw [plotSteps_eq_runCalls p im.Steps 0 0 0 st []]
  exact runCalls_state_of_none p _ st [] h

omit [LinearOrderedField R] in
theorem feed_append (p : Plotter σ ε R) (a b : List (Call R)) (st : σ) :
    p.feed (a ++ b) st = p.feed b (p.feed a st) := by
  simp [Plotter.feed, List.foldl_append]

theorem Bound.sameBox_call (c : Call R) (b d : Bound R) (h : b.SameBox d) :
    (Bound.plotter.call c b).1.SameBox (Bound.plotter.call c d).1 := by
  obtain ⟨h1, h2, h3, h4, h5, h6, h7, h8, h9, h10⟩ := h
  cases c with
  | Command cmd =>
    by_cases hc : cmd = CmdSetOrigin
    · simp [Plotter.call, Bound.plotter, Bound.Command, hc, Bound.SameBox, h1, h2, h3, h4, h5, h6,
        h7, h8, h9, h10]
    · simp [Plotter.call, Bound.plotter, Bound.Command, hc, Bound.SameBox, h1, h2, h3, h4, h5, h6,
        h7, h8, h9, h10]
  | MoveTo x y z =>
    simp [Plotter.call, Bound.plotter, Bound.MoveTo_eq, Bound.SameBox, h1, h2, h5, h6,
      h7, h8, h9, h10]
  | LineTo x y z =>
    simp [Plotter.call, Bound.plotter, Bound.LineTo, Bound.MoveTo_eq, Bound.SameBox, h1, h2, h5, h6,
      h7, h8, h9, h10]

theorem Bound.sameBox_feed (cs : List (Call R)) (b d : Bound R) (h : b.SameBox d) :
    (Bound.plotter.feed cs b).SameBox (Bound.plotter.feed cs d) := by
  induction cs generalizing b d with
  | nil => simpa [Plotter.feed] using h
  | cons c cs ih =>
    have := ih _ _ (Bound.sameBox_call c b d h)
    simpa [Plotter.feed] using this

theorem Bound.sameBox_repeat (b : Bound R) (x y z z2 : R) :
    ((b.MoveTo x y z).1.MoveTo x y z2).1.SameBox (b.MoveTo x y z).1 := by
  have hmin : ∀ v m : R, (if v < (if b.pts = 0 ∨ v < m then v else m) then v
      else (if b.pts = 0 ∨ v < m then v else m)) = (if b.pts = 0 ∨ v < m then v else m) := by
    intro v m
    by_cases hp : b.pts = 0
    · simp [hp]
    · simp only [hp, false_or]
      split_ifs <;> rfl
  have hmax : ∀ v m : R, (if (if b.pts = 0 ∨ m < v then v else m) < v then v
      else (if b.pts = 0 ∨ m < v then v else m)) = (if b.pts = 0 ∨ m < v then v else m) := by
    intro v m
    by_cases hp : b.pts = 0
    · simp [hp]
    · simp only [hp, false_or]
      split_ifs <;> rfl
  simp only [Bound.MoveTo_eq, Bound.SameBox, Nat.add_one_ne_zero, false_or, gt_iff_lt, hmin, hmax,
    ne_eq, not_false_eq_true, and_self]

theorem dispatched_take (im : Image R) (p : Plotter σ ε R) (st : σ) :
    (im.dispatched p st).map Prod.fst = im.calls.take (im.dispatched p st).length := by
  obtain ⟨l, h1, h2, _, _⟩ := runCalls_spec p (callsFrom im.Steps 0 0 0) st []
  rw [List.nil_append] at h1
  rw [dispatched_eq, calls_eq, h1]
  exact h2

end PenLemmas

/-! ## Lemmas on the two plotters -/

section TwoPlotters

variable {R : Type} [LinearOrderedField R]

theorem build_plot_bound_ok (cs : List (BuilderCall R)) (b : Bound R) :
    (((NewImage : Image R).build cs).Plot Bound.plotter b).2 = none :=
  plotSteps_ok Bound.plotter (by simp [Bound.plotter, Bound.Command])
    (by simp [Bound.plotter, Bound.MoveTo_eq])
    (by simp [Bound.plotter, Bound.LineTo, Bound.MoveTo_eq]) _ (build_command cs) 0 0 0 b

theorem agree_aux (cs : List (Call R)) (b : Bound R) (p : plotter R) (seen prev : Bool)
    (horig : b.oX = p.oX ∧ b.oY = p.oY)
    (hprev : prev = true → b.lastX = p.oX + p.penX ∧ b.lastY = p.oY + p.penY)
    (hseen : seen = false →
      b.lastX = 0 ∧ b.lastY = 0 ∧ p.penX = 0 ∧ p.penY = 0 ∧ b.oX = 0 ∧ b.oY = 0)
    (h : resetsFollowMoves seen prev cs = true) :
    Bound.recorded cs b = plotter.transformed cs p
      ∧ ∀ k, (Bound.plotter.feed (cs.take k) b).oX = (plotter.toPlotter.feed (cs.take k) p).oX
          ∧ (Bound.plotter.feed (cs.take k) b).oY = (plotter.toPlotter.feed (cs.take k) p).oY := by
  induction cs generalizing b p seen prev with
  | nil =>
    refine ⟨rfl, fun k => ?_⟩
    simpa [Plotter.feed] using horig
  | cons c cs ih =>
    cases c with
    | Command cmd =>
      simp only [resetsFollowMoves, Bool.and_eq_true, Bool.or_eq_true, Bool.not_eq_true'] at h
      obtain ⟨hcond, hrest⟩ := h
      have hstep : (b.Command cmd).1.oX = (p.Command cmd).1.oX
          ∧ (b.Command cmd).1.oY = (p.Command cmd).1.oY := by
        by_cases hc : cmd = CmdSetOrigin
        · rcases hcond with hs | hp
          · obtain ⟨a1, a2, a3, a4, a5, a6⟩ := hseen hs
            simp [Bound.Command, plotter.Command, hc, a1, a2, a3, a4, ← horig.1, ← horig.2, a5, a6]
          · obtain ⟨a1, a2⟩ := hprev hp
            simp [Bound.Command, plotter.Command, hc, a1, a2]
        · simp [Bound.Command, plotter.Command, hc, horig.1, horig.2]
      have hseen2 : seen = false →
          (b.Command cmd).1.lastX = 0 ∧ (b.Command cmd).1.lastY = 0
          ∧ (p.Command cmd).1.penX = 0 ∧ (p.Command cmd).1.penY = 0
          ∧ (b.Command cmd).1.oX = 0 ∧ (b.Command cmd).1.oY = 0 := by
        intro hs
        obtain ⟨a1, a2, a3, a4, a5, a6⟩ := hseen hs
        by_cases hc : cmd = CmdSetOrigin
        · simp [Bound.Command, plotter.Command, hc, a1, a2]
        · simp [Bound.Command, plotter.Command, hc, a1, a2, a3, a4, a5, a6]
      obtain ⟨i1, i2⟩ := ih (b.Command cmd).1 (p.Command cmd).1 seen false hstep
        (fun hf => absurd hf (by simp)) hseen2 hrest
      refine ⟨by simpa [Bound.recorded, plotter.transformed] using i1, fun k => ?_⟩
      cases k with
      | zero => simpa [Plotter.feed] using horig
      | succ k =>
        simpa [Plotter.feed, Plotter.call, Bound.plotter, plotter.toPlotter] using i2 k
    | MoveTo x y z =>
      simp only [resetsFollowMoves] at h
      obtain ⟨i1, i2⟩ := ih (b.MoveTo x y z).1 (p.MoveTo x y z).1 true true
        (by simp [Bound.MoveTo_eq, plotter.MoveTo, horig.1, horig.2])
        (fun _ => by simp [Bound.MoveTo_eq, plotter.MoveTo, horig.1, horig.2])
        (fun hf => absurd hf (by simp)) h
      refine ⟨?_, fun k => ?_⟩
      · simp only [Bound.recorded, plotter.transformed, i1]
        simp [Bound.MoveTo_eq, horig.1, horig.2]
      · cases k with
        | zero => simpa [Plotter.feed] using horig
        | succ k =>
          simpa [Plotter.feed, Plotter.call, Bound.plotter, plotter.toPlotter] using i2 k
    | LineTo x y z =>
      simp only [resetsFollowMoves] at h
      obtain ⟨i1, i2⟩ := ih (b.LineTo x y z).1 (p.LineTo x y z).1 true true
        (by simp [Bound.LineTo, Bound.MoveTo_eq, plotter.LineTo, horig.1, horig.2])
        (fun _ => by simp [Bound.LineTo, Bound.MoveTo_eq, plotter.LineTo, horig.1, horig.2])
        (fun hf => absurd hf (by simp)) h
      refine ⟨?_, fun k => ?_⟩
      · simp only [Bound.recorded, plotter.transformed, i1]
        simp [Bound.LineTo, Bound.MoveTo_eq, horig.1, horig.2]
      · cases k with
        | zero => simpa [Plotter.feed] using horig
        | succ k =>
          simpa [Plotter.feed, Plotter.call, Bound.plotter, plotter.toPlotter] using i2 k

end TwoPlotters

/-! ## Lemmas on the step of a call -/

section StepOfCall

variable {R : Type} [LinearOrderedField R]

omit [LinearOrderedField R] in
theorem live_split (steps : List (Step R)) (k : Nat)
    (hk : k < (steps.filter (fun t => t.Comment = "")).length) :
    ∃ pre s post, steps = pre ++ s :: post ∧ s.Comment = ""
      ∧ (pre.filter (fun t => t.Comment = "")).length = k := by
  induction steps generalizing k with
  | nil => simp at hk
  | cons t rest ih =>
    by_cases ht : t.Comment = ""
    · cases k with
      | zero => exact ⟨[], t, rest, rfl, ht, rfl⟩
      | succ k =>
        have hk2 : k < (rest.filter (fun t => t.Comment = "")).length := by
          simpa [List.filter_cons, ht] using hk
        obtain ⟨pre, s, post, h1, h2, h3⟩ := ih k hk2
        exact ⟨t :: pre, s, post, by rw [h1]; rfl, h2, by simp [List.filter_cons, ht, h3]⟩
    · have hk2 : k < (rest.filter (fun t => t.Comment = "")).length := by
        simpa [List.filter_cons, ht] using hk
      obtain ⟨pre, s, post, h1, h2, h3⟩ := ih k hk2
      exact ⟨t :: pre, s, post, by rw [h1]; rfl, h2, by simp [List.filter_cons, ht, h3]⟩

theorem call_of_command (im : Image R) (pre post : List (Step R)) (s : Step R)
    (hsplit : im.Steps = pre ++ s :: post) (hc : s.Comment = "")
    (hm : s.Command ≠ CmdInvalid) :
    im.calls[(pre.filter (fun t => t.Comment = "")).length]? = some (Call.Command s.Command) := by
  have hlen := callsFrom_length pre (0 : R) 0 0
  rw [calls_eq, hsplit, callsFrom_append, ← hlen, List.getElem?_append_right (le_refl _)]
  simp [callsFrom, hc, hm]

theorem moves_come_from_steps (im : Image R) (k : Nat) (c : Call R)
    (hk : im.calls[k]? = some c) (hmove : c.isMove = true) :
    ∃ pre s post, im.Steps = pre ++ s :: post ∧ s.Comment = "" ∧ s.Command = CmdInvalid
      ∧ (pre.filter (fun t => t.Comment = "")).length = k := by
  have hlt : k < (im.Steps.filter (fun t => t.Comment = "")).length := by
    rw [← callsFrom_length im.Steps (0 : R) 0 0, ← calls_eq]
    by_contra hge
    rw [List.getElem?_eq_none (not_lt.mp hge)] at hk
    exact absurd hk (by simp)
  obtain ⟨pre, s, post, h1, h2, h3⟩ := live_split im.Steps k hlt
  refine ⟨pre, s, post, h1, h2, ?_, h3⟩
  by_contra hm
  have := call_of_command im pre post s h1 h2 hm
  rw [h3, hk] at this
  have hc : c = Call.Command s.Command := by simpa using this
  rw [hc] at hmove
  simp [Call.isMove] at hmove

end StepOfCall

/-! ## Lemmas on the replay through pointers -/

section PointerLemmas

variable {R : Type} [LinearOrderedField R] {σ ε : Type}

omit [LinearOrderedField R] in
theorem recordingPtr_call (p : Plotter (Memory R × σ) ε R) (c : Call R) (m : Memory R) (st : σ)
    (log : List (Call R × Option ε)) :
    p.recordingPtr.call c (m, (st, log))
      = (((p.call c (m, st)).1.1, ((p.call c (m, st)).1.2, log ++ [(c, (p.call c (m, st)).2)])),
          (p.call c (m, st)).2) := by
  cases c <;> rfl

omit [LinearOrderedField R] in
theorem Memory.load_length (m : Memory R) (s : Slice) : (m.load s).length = s.len := by
  simp [Memory.load]

omit [LinearOrderedField R] in
theorem Memory.load_read (m m2 : Memory R) (s s2 : Slice) (h : m.load s = m2.load s2) :
    s.len = s2.len
      ∧ ∀ j, j < s.len → m.steps (m.arrays s.arr j) = m2.steps (m2.arrays s2.arr j) := by
  have hlen : s.len = s2.len := by
    have := congrArg List.length h
    simpa [Memory.load_length] using this
  refine ⟨hlen, fun j hj => ?_⟩
  have h2 : (m.load s)[j]? = (m2.load s2)[j]? := by rw [h]
  have hj2 : j < s2.len := hlen ▸ hj
  simpa [Memory.load, List.getElem?_map, List.getElem?_range hj, List.getElem?_range hj2] using h2

theorem Memory.image_ofImage (g : Image R) : (Memory.ofImage g).image 0 = g := by
  cases g with
  | mk steps copies =>
    simp only [Memory.image, Memory.ofImage, Memory.load, Image.mk.injEq, and_true]
    apply List.ext_getElem?
    intro j
    by_cases hj : j < steps.length
    · simp [List.getElem?_map, List.getElem?_range hj, List.getD_eq_getElem?_getD,
        List.getElem?_eq_getElem hj]
    · simp [List.getElem?_eq_none (not_lt.mp hj), List.getElem?_eq_none,
        List.length_range, not_lt.mp hj]

omit [LinearOrderedField R] in
theorem Memory.sameImage_refl (m : Memory R) (im : Nat) : m.SameImage m im :=
  ⟨rfl, fun _ _ => ⟨rfl, rfl⟩⟩

omit [LinearOrderedField R] in
theorem Memory.sameImage_trans (m m2 m3 : Memory R) (im : Nat) (h : m.SameImage m2 im)
    (h2 : m2.SameImage m3 im) : m.SameImage m3 im := by
  obtain ⟨ha, hb⟩ := h
  obtain ⟨hc, hd⟩ := h2
  rw [ha] at hd
  refine ⟨hc.trans ha, fun j hj => ?_⟩
  obtain ⟨h1, h2⟩ := hb j hj
  obtain ⟨h3, h4⟩ := hd j hj
  rw [h1] at h4
  exact ⟨h3.trans h1, h4.trans h2⟩

omit [LinearOrderedField R] in
theorem Memory.sameImage_image (m m2 : Memory R) (im : Nat) (h : m.SameImage m2 im) :
    m2.image im = m.image im := by
  obtain ⟨ha, hb⟩ := h
  simp only [Memory.image, Memory.load, ha, Image.mk.injEq, and_true]
  apply List.map_congr_left
  intro j hj
  obtain ⟨h1, h2⟩ := hb j (List.mem_range.mp hj)
  rw [h1, h2]

theorem plotRange_bisim {σ1 σ2 : Type} (p1 : Plotter (Memory R × σ1) ε R)
    (p2 : Plotter (Memory R × σ2) ε R) (a1 a2 : Nat)
    (Rel : Memory R × σ1 → Memory R × σ2 → Prop)
    (hstep : ∀ c v1 v2, Rel v1 v2 →
      (p1.call c v1).2 = (p2.call c v2).2 ∧ Rel (p1.call c v1).1 (p2.call c v2).1)
    (n i : Nat)
    (hread : ∀ v1 v2, Rel v1 v2 → ∀ j, i ≤ j → j < i + n →
      v1.1.steps (v1.1.arrays a1 j) = v2.1.steps (v2.1.arrays a2 j))
    (penX penY penZ : R) (w1 : Memory R × σ1) (w2 : Memory R × σ2) (h : Rel w1 w2) :
    (plotRange p1 a1 n i penX penY penZ w1).2
        = (plotRange p2 a2 n i penX penY penZ w2).2
      ∧ Rel (plotRange p1 a1 n i penX penY penZ w1).1
          (plotRange p2 a2 n i penX penY penZ w2).1 := by
  induction n generalizing i penX penY penZ w1 w2 with
  | zero => exact ⟨rfl, h⟩
  | succ n ih =>
    have hs := hread w1 w2 h i (le_refl _) (by omega)
    have hread2 : ∀ v1 v2, Rel v1 v2 → ∀ j, i + 1 ≤ j → j < i + 1 + n →
        v1.1.steps (v1.1.arrays a1 j) = v2.1.steps (v2.1.arrays a2 j) :=
      fun v1 v2 hv j h1 h2 => hread v1 v2 hv j (by omega) (by omega)
    simp only [plotRange]
    rw [hs]
    generalize w2.1.steps (w2.1.arrays a2 i) = s
    by_cases h1 : s.Comment = ""
    · by_cases h2 : s.Command = CmdInvalid
      · by_cases h3 : s.Rel = true
        · obtain ⟨ha, hr⟩ := hstep (Call.MoveTo (penX + s.X) (penY + s.Y) (penZ + s.Z)) w1 w2 h
          simp only [Plotter.call] at ha hr
          rcases hc1 : p1.MoveTo (penX + s.X) (penY + s.Y) (penZ + s.Z) w1 with ⟨v1, o1⟩
          rcases hc2 : p2.MoveTo (penX + s.X) (penY + s.Y) (penZ + s.Z) w2 with ⟨v2, o2⟩
          rw [hc1, hc2] at ha hr
          simp only at ha hr
          subst ha
          cases o1 with
          | none => simpa [h1, h2, h3] using ih (i + 1) hread2 _ _ _ v1 v2 hr
          | some e => simpa [h1, h2, h3] using hr
        · by_cases h4 : s.Active = true
          · obtain ⟨ha, hr⟩ := hstep (Call.LineTo s.X s.Y penZ) w1 w2 h
            simp only [Plotter.call] at ha hr
            rcases hc1 : p1.LineTo s.X s.Y penZ w1 with ⟨v1, o1⟩
            rcases hc2 : p2.LineTo s.X s.Y penZ w2 with ⟨v2, o2⟩
            rw [hc1, hc2] at ha hr
            simp only at ha hr
            subst ha
            cases o1 with
            | none => simpa [h1, h2, h3, h4] using ih (i + 1) hread2 _ _ _ v1 v2 hr
            | some e => simpa [h1, h2, h3, h4] using hr
          · obtain ⟨ha, hr⟩ := hstep (Call.MoveTo s.X s.Y penZ) w1 w2 h
            simp only [Plotter.call] at ha hr
            rcases hc1 : p1.MoveTo s.X s.Y penZ w1 with ⟨v1, o1⟩
            rcases hc2 : p2.MoveTo s.X s.Y penZ w2 with ⟨v2, o2⟩
            rw [hc1, hc2] at ha hr
            simp only at ha hr
            subst ha
            cases o1 with
            | none => simpa [h1, h2, h3, h4] using ih (i + 1) hread2 _ _ _ v1 v2 hr
            | some e => simpa [h1, h2, h3, h4] using hr
      · obtain ⟨ha, hr⟩ := hstep (Call.Command s.Command) w1 w2 h
        simp only [Plotter.call] at ha hr
        rcases hc1 : p1.Command s.Command w1 with ⟨v1, o1⟩
        rcases hc2 : p2.Command s.Command w2 with ⟨v2, o2⟩
        rw [hc1, hc2] at ha hr
        simp only at ha hr
        subst ha
        cases o1 with
        | none => simpa [h1, h2] using ih (i + 1) hread2 _ _ _ v1 v2 hr
        | some e => simpa [h1, h2] using hr
    · simpa [h1] using ih (i + 1) hread2 penX penY penZ w1 w2 h

theorem plotRange_eq_plotSteps (p : Plotter (Memory R × σ) ε R) (arr : Nat)
    (rd : Nat → Step R) (P : Memory R × σ → Prop) (hP : ∀ c v, P v → P (p.call c v).1)
    (n i : Nat)
    (hrd : ∀ v, P v → ∀ j, i ≤ j → j < i + n → v.1.steps (v.1.arrays arr j) = rd j)
    (penX penY penZ : R) (w : Memory R × σ) (hw : P w) :
    plotRange p arr n i penX penY penZ w
      = plotSteps p ((List.range' i n).map rd) penX penY penZ w := by
  induction n generalizing i penX penY penZ w with
  | zero => rfl
  | succ n ih =>
    have hs := hrd w hw i (le_refl _) (by omega)
    have hrd2 : ∀ v, P v → ∀ j, i + 1 ≤ j → j < i + 1 + n →
        v.1.steps (v.1.arrays arr j) = rd j :=
      fun v hv j h1 h2 => hrd v hv j (by omega) (by omega)
    simp only [plotRange, List.range'_succ, List.map_cons, plotSteps]
    rw [hs]
    generalize rd i = s
    by_cases h1 : s.Comment = ""
    · by_cases h2 : s.Command = CmdInvalid
      · by_cases h3 : s.Rel = true
        · have hv := hP (Call.MoveTo (penX + s.X) (penY + s.Y) (penZ + s.Z)) w hw
          simp only [Plotter.call] at hv
          rcases hc : p.MoveTo (penX + s.X) (penY + s.Y) (penZ + s.Z) w with ⟨v, _ | e⟩
          · rw [hc] at hv
            simpa [h1, h2, h3] using ih (i + 1) hrd2 _ _ _ v hv
          · simp [h1, h2, h3]
        · by_cases h4 : s.Active = true
          · have hv := hP (Call.LineTo s.X s.Y penZ) w hw
            simp only [Plotter.call] at hv
            rcases hc : p.LineTo s.X s.Y penZ w with ⟨v, _ | e⟩
            · rw [hc] at hv
              simpa [h1, h2, h3, h4] using ih (i + 1) hrd2 _ _ _ v hv
            · simp [h1, h2, h3, h4]
          · have hv := hP (Call.MoveTo s.X s.Y penZ) w hw
            simp only [Plotter.call] at hv
            rcases hc : p.MoveTo s.X s.Y penZ w with ⟨v, _ | e⟩
            · rw [hc] at hv
              simpa [h1, h2, h3, h4] using ih (i + 1) hrd2 _ _ _ v hv
            · simp [h1, h2, h3, h4]
      · have hv := hP (Call.Command s.Command) w hw
        simp only [Plotter.call] at hv
        rcases hc : p.Command s.Command w with ⟨v, _ | e⟩
        · rw [hc] at hv
          simpa [h1, h2] using ih (i + 1) hrd2 _ _ _ v hv
        · simp [h1, h2]
    · simpa [h1] using ih (i + 1) hrd2 penX penY penZ w hw

omit [LinearOrderedField R] in
theorem withMemory_Command (p : Plotter σ ε R) (cmd : Command) (m : Memory R) (st : σ) :
    p.withMemory.Command cmd (m, st) = ((m, (p.Command cmd st).1), (p.Command cmd st).2) := rfl

omit [LinearOrderedField R] in
theorem withMemory_MoveTo (p : Plotter σ ε R) (x y z : R) (m : Memory R) (st : σ) :
    p.withMemory.MoveTo x y z (m, st) = ((m, (p.MoveTo x y z st).1), (p.MoveTo x y z st).2) := rfl

omit [LinearOrderedField R] in
theorem withMemory_LineTo (p : Plotter σ ε R) (x y z : R) (m : Memory R) (st : σ) :
    p.withMemory.LineTo x y z (m, st) = ((m, (p.LineTo x y z st).1), (p.LineTo x y z st).2) := rfl

theorem plotSteps_withMemory (p : Plotter σ ε R) (steps : List (Step R)) (penX penY penZ : R)
    (m : Memory R) (st : σ) :
    plotSteps p.withMemory steps penX penY penZ (m, st)
      = ((m, (plotSteps p steps penX penY penZ st).1), (plotSteps p steps penX penY penZ st).2) := by
  induction steps generalizing penX penY penZ st with
  | nil => rfl
  | cons s rest ih =>
    by_cases h1 : s.Comment = ""
    · by_cases h2 : s.Command = CmdInvalid
      · by_cases h3 : s.Rel = true
        · rcases hc : p.MoveTo (penX + s.X) (penY + s.Y) (penZ + s.Z) st with ⟨v, _ | e⟩ <;>
            simp [plotSteps, withMemory_MoveTo, h1, h2, h3, hc, ih]
        · by_cases h4 : s.Active = true
          · rcases hc : p.LineTo s.X s.Y penZ st with ⟨v, _ | e⟩ <;>
              simp [plotSteps, withMemory_MoveTo, withMemory_LineTo, h1, h2, h3, h4, hc, ih]
          · rcases hc : p.MoveTo s.X s.Y penZ st with ⟨v, _ | e⟩ <;>
              simp [plotSteps, withMemory_MoveTo, withMemory_LineTo, h1, h2, h3, h4, hc, ih]
      · rcases hc : p.Command s.Command st with ⟨v, _ | e⟩ <;>
          simp [plotSteps, withMemory_Command, h1, h2, hc, ih]
    · simp [plotSteps, h1, ih]

end PointerLemmas

/-! ## Lemmas on Plot through a pointer -/

section PlotPtrLemmas

variable {R : Type} [LinearOrderedField R] {σ ε : Type}

omit [LinearOrderedField R] in
theorem withMemory_call (p : Plotter σ ε R) (c : Call R) (m : Memory R) (st : σ) :
    p.withMemory.call c (m, st) = ((m, (p.call c st).1), (p.call c st).2) := by
  cases c <;> rfl

theorem plotPtr_bisim {σ1 σ2 : Type} (im1 im2 : Nat) (p1 : Plotter (Memory R × σ1) ε R)
    (p2 : Plotter (Memory R × σ2) ε R) (Rel : Memory R × σ1 → Memory R × σ2 → Prop)
    (w1 : Memory R × σ1) (w2 : Memory R × σ2) (h0 : Rel w1 w2)
    (hread : ∀ v1 v2, Rel v1 v2 →
      v1.1.load (w1.1.images im1).Steps = v2.1.load (w2.1.images im2).Steps)
    (hstep : ∀ c v1 v2, Rel v1 v2 →
      (p1.call c v1).2 = (p2.call c v2).2 ∧ Rel (p1.call c v1).1 (p2.call c v2).1) :
    (PlotPtr im1 p1 w1).2 = (PlotPtr im2 p2 w2).2
      ∧ Rel (PlotPtr im1 p1 w1).1 (PlotPtr im2 p2 w2).1 := by
  have hlen := (Memory.load_read _ _ _ _ (hread w1 w2 h0)).1
  simp only [PlotPtr]
  rw [← hlen]
  exact plotRange_bisim p1 p2 _ _ Rel hstep _ 0
    (fun v1 v2 hv j _ hj => (Memory.load_read _ _ _ _ (hread v1 v2 hv)).2 j (by omega))
    0 0 0 w1 w2 h0

theorem dispatchedPtr_bisim {σ1 σ2 : Type} (im1 im2 : Nat) (p1 : Plotter (Memory R × σ1) ε R)
    (p2 : Plotter (Memory R × σ2) ε R) (Rel : Memory R × σ1 → Memory R × σ2 → Prop)
    (w1 : Memory R × σ1) (w2 : Memory R × σ2) (h0 : Rel w1 w2)
    (hread : ∀ v1 v2, Rel v1 v2 →
      v1.1.load (w1.1.images im1).Steps = v2.1.load (w2.1.images im2).Steps)
    (hstep : ∀ c v1 v2, Rel v1 v2 →
      (p1.call c v1).2 = (p2.call c v2).2 ∧ Rel (p1.call c v1).1 (p2.call c v2).1) :
    dispatchedPtr im1 p1 w1 = dispatchedPtr im2 p2 w2 := by
  have h := plotPtr_bisim im1 im2 p1.recordingPtr p2.recordingPtr
    (fun x y => Rel (x.1, x.2.1) (y.1, y.2.1) ∧ x.2.2 = y.2.2) (w1.1, (w1.2, [])) (w2.1, (w2.2, []))
    ⟨h0, rfl⟩
    (fun v1 v2 hv => hread (v1.1, v1.2.1) (v2.1, v2.2.1) hv.1)
    (fun c v1 v2 hv => by
      obtain ⟨m1, a1, l1⟩ := v1
      obtain ⟨m2, a2, l2⟩ := v2
      obtain ⟨ha, hr⟩ := hstep c (m1, a1) (m2, a2) hv.1
      have hl : l1 = l2 := hv.2
      rw [recordingPtr_call, recordingPtr_call]
      exact ⟨ha, hr, by rw [ha, hl]⟩)
  exact h.2.2

theorem plotPtr_recordingPtr (im : Nat) (p : Plotter (Memory R × σ) ε R) (w : Memory R × σ)
    (log : List (Call R × Option ε)) :
    (PlotPtr im p.recordingPtr (w.1, (w.2, log))).2 = (PlotPtr im p w).2
      ∧ ((PlotPtr im p.recordingPtr (w.1, (w.2, log))).1.1,
          (PlotPtr im p.recordingPtr (w.1, (w.2, log))).1.2.1) = (PlotPtr im p w).1 :=
  plotPtr_bisim im im p.recordingPtr p (fun x y => (x.1, x.2.1) = y) (w.1, (w.2, log)) w rfl
    (fun v1 v2 hv => by
      have hv2 : (v1.1, v1.2.1) = v2 := hv
      subst hv2
      rfl)
    (fun c v1 v2 hv => by
      obtain ⟨m1, a1, l1⟩ := v1
      have hv2 : (m1, a1) = v2 := hv
      subst hv2
      rw [recordingPtr_call]
      exact ⟨rfl, rfl⟩)

theorem plotPtr_feed (im : Nat) (p : Plotter (Memory R × σ) ε R) (w : Memory R × σ) :
    (PlotPtr im p w).1 = p.feed ((dispatchedPtr im p w).map Prod.fst) w := by
  have h := plotPtr_bisim im im p.recordingPtr p.recordingPtr
    (fun x y => x = y ∧ (x.1, x.2.1) = p.feed (x.2.2.map Prod.fst) w)
    (w.1, (w.2, [])) (w.1, (w.2, []))
    ⟨rfl, by simp [Plotter.feed]⟩
    (fun v1 v2 hv => by rw [hv.1])
    (fun c v1 v2 hv => by
      obtain ⟨m1, a1, l1⟩ := v1
      obtain ⟨hx, hy⟩ := hv
      subst hx
      rw [recordingPtr_call]
      refine ⟨rfl, rfl, ?_⟩
      have hy2 : (m1, a1) = p.feed (l1.map Prod.fst) w := hy
      simp only [List.map_append, List.map_cons, List.map_nil, feed_append]
      rw [← hy2]
      rfl)
  rw [← (plotPtr_recordingPtr im p w []).2]
  exact h.2.2

theorem plotPtr_frame (im : Nat) (p : Plotter (Memory R × σ) ε R) (w : Memory R × σ)
    (hframe : ∀ (c : Call R) (v : Memory R × σ), v.1.SameImage (p.call c v).1.1 im) :
    w.1.SameImage (PlotPtr im p w).1.1 im
      ∧ PlotPtr im p w = (w.1.image im).Plot p w := by
  have hP : ∀ (c : Call R) (v : Memory R × σ),
      w.1.SameImage v.1 im → w.1.SameImage (p.call c v).1.1 im :=
    fun c v hv => Memory.sameImage_trans _ _ _ im hv (hframe c v)
  constructor
  · have h := plotPtr_bisim im im p p
      (fun x y => x = y ∧ w.1.SameImage x.1 im) w w
      ⟨rfl, Memory.sameImage_refl _ _⟩ (fun v1 v2 hv => by rw [hv.1])
      (fun c v1 v2 hv => by
        obtain ⟨hx, hy⟩ := hv
        subst hx
        exact ⟨rfl, rfl, hP c v1 hy⟩)
    exact h.2.2
  · simp only [PlotPtr, Image.Plot, Memory.image, Memory.load, List.range_eq_range']
    exact plotRange_eq_plotSteps p _
      (fun j => w.1.steps (w.1.arrays (w.1.images im).Steps.arr j))
      (fun v => w.1.SameImage v.1 im) hP _ 0
      (fun v hv j _ hj => by
        obtain ⟨h1, h2⟩ := hv.2 j (by omega)
        rw [h1, h2])
      0 0 0 w (Memory.sameImage_refl _ _)

omit [LinearOrderedField R] in
theorem recording_call (p : Plotter σ ε R) (c : Call R) (st : σ)
    (log : List (Call R × Option ε)) :
    p.recording.call c (st, log)
      = (((p.call c st).1, log ++ [(c, (p.call c st).2)]), (p.call c st).2) := by
  cases c <;> rfl

theorem dispatchedPtr_frame (im : Nat) (p : Plotter (Memory R × σ) ε R) (w : Memory R × σ)
    (hframe : ∀ (c : Call R) (v : Memory R × σ), v.1.SameImage (p.call c v).1.1 im) :
    dispatchedPtr im p w = (w.1.image im).dispatched p w := by
  have h := (plotPtr_frame im p.recordingPtr (w.1, (w.2, []))
    (fun c v => by
      obtain ⟨m, a, l⟩ := v
      rw [recordingPtr_call]
      exact hframe c (m, a))).2
  have hb := runCalls_bisim p.recordingPtr p.recording
    (fun x y => ((x.1, x.2.1), x.2.2) = y)
    (fun c v1 v2 hv => by
      obtain ⟨m, a, l⟩ := v1
      have hv2 : ((m, a), l) = v2 := hv
      subst hv2
      rw [recordingPtr_call, recording_call]
      exact ⟨rfl, rfl⟩)
    (callsFrom (w.1.image im).Steps 0 0 0) (w.1, (w.2, [])) (w, []) [] rfl
  have hc := hb.2.2
  simp only [dispatchedPtr, Image.dispatched, h, Image.Plot]
  rw [plotSteps_eq_runCalls p.recordingPtr _ 0 0 0 _ [],
    plotSteps_eq_runCalls p.recording _ 0 0 0 _ []]
  exact congrArg Prod.snd hc

theorem plotPtr_withMemory (p : Plotter σ ε R) (m : Memory R) (im : Nat) (st : σ) :
    PlotPtr im p.withMemory (m, st)
      = ((m, ((m.image im).Plot p st).1), ((m.image im).Plot p st).2) := by
  rw [(plotPtr_frame im p.withMemory (m, st)
    (fun c v => by
      obtain ⟨a, s⟩ := v
      rw [withMemory_call]
      exact Memory.sameImage_refl _ _)).2]
  simp only [Image.Plot]
  exact plotSteps_withMemory p _ 0 0 0 m st

end PlotPtrLemmas

/-! ## The claims -/

section Claims

variable {R : Type} [LinearOrderedField R] {σ ε : Type}

/-- C1: through a Plotter that never returns an error, Plot makes exactly one
call per step whose Comment is empty and none for a step with a comment, in log
order: Command(s.Command) when s.Command is not CmdInvalid, else MoveTo when
s.Rel, else LineTo when s.Active and MoveTo when not; a relative step never
produces LineTo, and an Image holding only the step of Drill(-2, 50) dispatches
the single call MoveTo(0, 0, -2). -/
theorem C1_plot_dispatch (im : Image R) (p : Plotter σ ε R) (st : σ)
    (hp : ∀ c st, (p.call c st).2 = none) :
    List.Forall₂
        (fun s d => Dispatches s d.1 ∧ (s.Rel = true → ∀ x y z, d.1 ≠ Call.LineTo x y z))
        (im.Steps.filter (fun s => s.Comment = "")) (im.dispatched p st)
      ∧ (∀ im0 : Image R, im0.Steps = [] →
          (im0.Drill (-2) 50).1.dispatched p st = [(Call.MoveTo 0 0 (-2), none)]) := by
  have key : ∀ im1 : Image R,
      im1.dispatched p st = (callsFrom im1.Steps 0 0 0).map (fun c => (c, none)) := by
    intro im1
    rw [dispatched_eq, (runCalls_ok p hp _ st []).1]
    simp
  refine ⟨?_, ?_⟩
  · rw [key, List.forall₂_map_right_iff]
    exact callsFrom_dispatches im.Steps 0 0 0
  · intro im0 h0
    rw [key]
    simp [Image.Drill, h0, callsFrom, Step.zero, CmdInvalid]

/-- Witness of C1: the plotter whose methods all return nil, on the Image that
holds only the step of Drill(-2, 50). -/
theorem C1_plot_dispatch_witness :
    (∀ c st, ((nullPlotter : Plotter Unit Empty ℚ).call c st).2 = none) ∧
      ((NewImage : Image ℚ).Drill (-2) 50).1.dispatched (nullPlotter : Plotter Unit Empty ℚ) ()
        = [(Call.MoveTo 0 0 (-2), none)] :=
  ⟨fun c _ => by cases c <;> rfl,
    (C1_plot_dispatch (NewImage : Image ℚ) (nullPlotter : Plotter Unit Empty ℚ) ()
      (fun c _ => by cases c <;> rfl)).2 NewImage rfl⟩

/-- C2: LineXY returns ErrInvalidPower exactly when power < 0 or power > 100
(and nil otherwise); on that error the Image is what it was; on success exactly
one step is appended, with X = x, Y = y, Active, Power = power, not Rel, empty
Comment and Command = CmdInvalid. -/
theorem C2_lineXY (im : Image R) (x y power : R) :
    ((im.LineXY x y power).2 = some Err.ErrInvalidPower ↔ (power < 0 ∨ power > 100))
      ∧ ((im.LineXY x y power).2 = some Err.ErrInvalidPower →
          (im.LineXY x y power).1.Steps = im.Steps ∧ (im.LineXY x y power).1.Copies = im.Copies)
      ∧ (¬ (power < 0 ∨ power > 100) → (im.LineXY x y power).2 = none)
      ∧ ((im.LineXY x y power).2 = none →
          ∃ s : Step R, (im.LineXY x y power).1.Steps = im.Steps ++ [s]
            ∧ s.X = x ∧ s.Y = y ∧ s.Active = true ∧ s.Power = power ∧ s.Rel = false
            ∧ s.Comment = "" ∧ s.Command = CmdInvalid) := by
  by_cases h : power < 0 ∨ power > 100
  · simp [Image.LineXY, h]
  · simp [Image.LineXY, h, moveXY, Step.zero]

/-- C3: the Image built by MoveXY(a, b), SetOrigin(), MoveXY(c, d), replayed
through a fresh Bound, returns no error and leaves pts = 2 and the box
[min(a, a+c), max(a, a+c)] x [min(b, b+d), max(b, b+d)]; for (5, 5) and (2, 2)
the box is min = (5, 5), max = (7, 7). -/
theorem C3_extent_tracking (a b c d : R) :
    (((NewImage : Image R).build
          [BuilderCall.MoveXY a b, BuilderCall.SetOrigin, BuilderCall.MoveXY c d]).Plot
        Bound.plotter Bound.fresh)
      = ({ pts := 2, oX := a, oY := b, lastX := a + c, lastY := b + d,
           minX := min a (a + c), maxX := max a (a + c),
           minY := min b (b + d), maxY := max b (b + d) }, none)
    ∧ (let r := ((NewImage : Image R).build
          [BuilderCall.MoveXY 5 5, BuilderCall.SetOrigin, BuilderCall.MoveXY 2 2]).Plot
          Bound.plotter Bound.fresh
       r.2 = none ∧ r.1.pts = 2 ∧ (r.1.minX, r.1.minY) = (5, 5) ∧ (r.1.maxX, r.1.maxY) = (7, 7)) := by
  have key : ∀ a b c d : R,
      (((NewImage : Image R).build
          [BuilderCall.MoveXY a b, BuilderCall.SetOrigin, BuilderCall.MoveXY c d]).Plot
        Bound.plotter Bound.fresh)
      = ({ pts := 2, oX := a, oY := b, lastX := a + c, lastY := b + d,
           minX := min a (a + c), maxX := max a (a + c),
           minY := min b (b + d), maxY := max b (b + d) }, none) := by
    intro a b c d
    have hx : (if c < 0 then a + c else a) = min a (a + c) := by
      split_ifs with h
      · exact (min_eq_right (by linarith)).symm
      · exact (min_eq_left (by linarith)).symm
    have hX : (if 0 < c then a + c else a) = max a (a + c) := by
      split_ifs with h
      · exact (max_eq_right (by linarith)).symm
      · exact (max_eq_left (by linarith)).symm
    have hy : (if d < 0 then b + d else b) = min b (b + d) := by
      split_ifs with h
      · exact (min_eq_right (by linarith)).symm
      · exact (min_eq_left (by linarith)).symm
    have hY : (if 0 < d then b + d else b) = max b (b + d) := by
      split_ifs with h
      · exact (max_eq_right (by linarith)).symm
      · exact (max_eq_left (by linarith)).symm
    simp [Image.build, Image.invoke, NewImage, Image.MoveXY, Image.SetOrigin, moveXY, Step.zero,
      Image.Plot, plotSteps, Bound.plotter, Bound.MoveTo_eq, Bound.Command, Bound.fresh,
      CmdInvalid, CmdSetOrigin, hx, hX, hy, hY]
  refine ⟨key a b c d, ?_⟩
  rw [key]
  norm_num

/-- C4: for every sequence of Command, MoveTo and LineTo calls fed to a fresh
Bound that holds at least one MoveTo or LineTo, pts is the number of MoveTo and
LineTo calls, minX, maxX, minY, maxY are the minimum and the maximum of the
coordinates that those calls stored in (lastX, lastY), each such call stores
(oX + x, oY + y), so minX <= maxX, minY <= maxY, every recorded point lies in
the box, and LineTo has exactly the effect of MoveTo. -/
theorem C4_bound_box (cs : List (Call R)) (hne : ∃ c ∈ cs, c.isMove = true) :
    (Bound.plotter.feed cs Bound.fresh).pts = (cs.filter Call.isMove).length
    ∧ (Bound.recorded cs Bound.fresh).length = (cs.filter Call.isMove).length
    ∧ ((Bound.recorded cs Bound.fresh).map Prod.fst).minimum
        = ((Bound.plotter.feed cs Bound.fresh).minX : WithTop R)
    ∧ ((Bound.recorded cs Bound.fresh).map Prod.fst).maximum
        = ((Bound.plotter.feed cs Bound.fresh).maxX : WithBot R)
    ∧ ((Bound.recorded cs Bound.fresh).map Prod.snd).minimum
        = ((Bound.plotter.feed cs Bound.fresh).minY : WithTop R)
    ∧ ((Bound.recorded cs Bound.fresh).map Prod.snd).maximum
        = ((Bound.plotter.feed cs Bound.fresh).maxY : WithBot R)
    ∧ (Bound.plotter.feed cs Bound.fresh).minX ≤ (Bound.plotter.feed cs Bound.fresh).maxX
    ∧ (Bound.plotter.feed cs Bound.fresh).minY ≤ (Bound.plotter.feed cs Bound.fresh).maxY
    ∧ (∀ q ∈ Bound.recorded cs Bound.fresh,
        (Bound.plotter.feed cs Bound.fresh).minX ≤ q.1
        ∧ q.1 ≤ (Bound.plotter.feed cs Bound.fresh).maxX
        ∧ (Bound.plotter.feed cs Bound.fresh).minY ≤ q.2
        ∧ q.2 ≤ (Bound.plotter.feed cs Bound.fresh).maxY)
    ∧ (∀ (b : Bound R) (x y z : R),
        b.LineTo x y z = b.MoveTo x y z
        ∧ (b.MoveTo x y z).1.lastX = b.oX + x ∧ (b.MoveTo x y z).1.lastY = b.oY + y
        ∧ (b.MoveTo x y z).2 = none) := by
  have hspan := Bound.spans_feed cs (Bound.fresh : Bound R) []
    ⟨by simp [Bound.fresh], fun h => absurd rfl h⟩
  rw [List.nil_append] at hspan
  have hlen := Bound.recorded_length cs (Bound.fresh : Bound R)
  have hpos : Bound.recorded cs (Bound.fresh : Bound R) ≠ [] := by
    intro h
    rw [h] at hlen
    obtain ⟨c, hc, hm⟩ := hne
    have : c ∈ cs.filter Call.isMove := List.mem_filter.mpr ⟨hc, hm⟩
    have h0 : cs.filter Call.isMove = [] := List.length_eq_zero.mp hlen.symm
    rw [h0] at this
    exact absurd this (List.not_mem_nil c)
  obtain ⟨hp, hbox⟩ := hspan
  obtain ⟨hx, hX, hy, hY⟩ := hbox hpos
  have hx2 := List.minimum_eq_coe_iff.mp hx
  have hX2 := List.maximum_eq_coe_iff.mp hX
  have hy2 := List.minimum_eq_coe_iff.mp hy
  have hY2 := List.maximum_eq_coe_iff.mp hY
  refine ⟨by rw [hp, hlen], hlen, hx, hX, hy, hY, hX2.2 _ hx2.1, hY2.2 _ hy2.1, ?_, ?_⟩
  · intro q hq
    exact ⟨hx2.2 _ (List.mem_map_of_mem Prod.fst hq), hX2.2 _ (List.mem_map_of_mem Prod.fst hq),
      hy2.2 _ (List.mem_map_of_mem Prod.snd hq), hY2.2 _ (List.mem_map_of_mem Prod.snd hq)⟩
  · intro b x y z
    refine ⟨rfl, ?_, ?_, ?_⟩ <;> simp [Bound.MoveTo_eq]

/-- Witness of C4: MoveTo(5, 5, 0), Command(CmdSetOrigin), LineTo(2, 2, 0) holds a
MoveTo, and a fresh Bound fed with it counts two points. -/
theorem C4_bound_box_witness :
    (∃ c ∈ [Call.MoveTo (5 : ℚ) 5 0, Call.Command CmdSetOrigin, Call.LineTo 2 2 0],
        c.isMove = true)
    ∧ (Bound.plotter.feed
        [Call.MoveTo (5 : ℚ) 5 0, Call.Command CmdSetOrigin, Call.LineTo 2 2 0]
        Bound.fresh).pts
      = ([Call.MoveTo (5 : ℚ) 5 0, Call.Command CmdSetOrigin, Call.LineTo 2 2 0].filter
          Call.isMove).length :=
  ⟨⟨Call.MoveTo 5 5 0, by simp, rfl⟩,
    (C4_bound_box [Call.MoveTo (5 : ℚ) 5 0, Call.Command CmdSetOrigin, Call.LineTo 2 2 0]
      ⟨Call.MoveTo 5 5 0, by simp, rfl⟩).1⟩

/-- C5: for every Image and Plotter, the calls Plot dispatches are the first
calls, with the same arguments, of the replay through a Plotter that never
fails; a dispatched call that returns an error e is the last call dispatched
and Plot returns exactly e; if no dispatched call fails, Plot returns nil after
the whole replay. -/
theorem C5_abort_on_first_error (im : Image R) (p : Plotter σ ε R) (st : σ) :
    (im.dispatched p st).map Prod.fst = im.calls.take (im.dispatched p st).length
    ∧ (∀ i c e, (im.dispatched p st)[i]? = some (c, some e) →
        i + 1 = (im.dispatched p st).length ∧ (im.Plot p st).2 = some e)
    ∧ ((∀ d ∈ im.dispatched p st, d.2 = none) →
        (im.Plot p st).2 = none ∧ (im.dispatched p st).map Prod.fst = im.calls) := by
  obtain ⟨l, h1, h2, h3, h4⟩ := runCalls_spec p (callsFrom im.Steps 0 0 0) st []
  rw [List.nil_append] at h1
  rw [dispatched_eq, calls_eq, plot_result, h1]
  exact ⟨h2, h3, h4⟩

/-- C6, as stated, fails for the empty text: Note("") appends a step whose
Comment is empty, which Plot replays as MoveTo(0, 0, 0); inserting it into the
empty sequence of builder calls changes the dispatched calls. -/
theorem C6_note_empty_text_counterexample :
    ((NewImage : Image ℚ).build ([] ++ BuilderCall.Note "" :: [])).calls = [Call.MoveTo 0 0 0]
    ∧ ((NewImage : Image ℚ).build ([] ++ [])).calls = []
    ∧ ((NewImage : Image ℚ).build ([] ++ BuilderCall.Note "" :: [])).calls
        ≠ ((NewImage : Image ℚ).build ([] ++ [])).calls := by
  have h1 : ((NewImage : Image ℚ).build ([] ++ BuilderCall.Note "" :: [])).calls
      = [Call.MoveTo 0 0 0] := by
    rw [calls_eq]
    simp [Image.build, Image.invoke, Image.Note, NewImage, Step.zero, callsFrom, CmdInvalid]
  have h2 : ((NewImage : Image ℚ).build ([] ++ [])).calls = [] := by
    rw [calls_eq]
    simp [Image.build, NewImage, callsFrom]
  refine ⟨h1, h2, ?_⟩
  rw [h1, h2]
  simp

/-- C6, amended: for every non-empty text and every sequence of builder calls,
inserting Note(text) at any position changes neither the calls that Plot
dispatches for the resulting Image nor the result of Plot through any Plotter;
and Note("x"), MoveXY(1, 1), Note("y") replayed through a fresh Bound records
exactly one point, (1, 1). -/
theorem C6_note_skipped (text : String) (htext : text ≠ "") :
    (∀ cs1 cs2 : List (BuilderCall R),
      ((NewImage : Image R).build (cs1 ++ BuilderCall.Note text :: cs2)).calls
          = ((NewImage : Image R).build (cs1 ++ cs2)).calls
        ∧ ∀ (σ ε : Type) (p : Plotter σ ε R) (st : σ),
            ((NewImage : Image R).build (cs1 ++ BuilderCall.Note text :: cs2)).Plot p st
                = ((NewImage : Image R).build (cs1 ++ cs2)).Plot p st
              ∧ ((NewImage : Image R).build (cs1 ++ BuilderCall.Note text :: cs2)).dispatched p st
                = ((NewImage : Image R).build (cs1 ++ cs2)).dispatched p st)
    ∧ ((NewImage : Image R).build
          [BuilderCall.Note "x", BuilderCall.MoveXY 1 1, BuilderCall.Note "y"]).calls
        = [Call.MoveTo 1 1 0]
    ∧ (((NewImage : Image R).build
          [BuilderCall.Note "x", BuilderCall.MoveXY 1 1, BuilderCall.Note "y"]).Plot
          Bound.plotter Bound.fresh)
        = ({ pts := 1, oX := 0, oY := 0, lastX := 1, lastY := 1,
             minX := 1, maxX := 1, minY := 1, maxY := 1 }, none)
    ∧ Bound.recorded ((NewImage : Image R).build
          [BuilderCall.Note "x", BuilderCall.MoveXY 1 1, BuilderCall.Note "y"]).calls Bound.fresh
        = [(1, 1)] := by
  have hcalls : ((NewImage : Image R).build
      [BuilderCall.Note "x", BuilderCall.MoveXY 1 1, BuilderCall.Note "y"]).calls
      = [Call.MoveTo 1 1 0] := by
    rw [calls_eq]
    simp [Image.build, Image.invoke, Image.Note, Image.MoveXY, moveXY, NewImage, Step.zero,
      callsFrom, CmdInvalid]
  refine ⟨?_, hcalls, ?_, ?_⟩
  · intro cs1 cs2
    have hsteps : callsFrom ((NewImage : Image R).build
          (cs1 ++ BuilderCall.Note text :: cs2)).Steps 0 0 0
        = callsFrom ((NewImage : Image R).build (cs1 ++ cs2)).Steps 0 0 0 := by
      rw [(build_steps _ _).1, (build_steps _ _).1]
      have happ : (BuilderCall.Note text : BuilderCall R).appended
          = [{ (Step.zero : Step R) with Comment := text }] := by
        simp [BuilderCall.appended, Image.invoke, Image.Note, NewImage]
      simp only [List.flatMap_append, List.flatMap_cons, happ, NewImage, List.nil_append,
        List.singleton_append]
      exact callsFrom_skip _ _ _ htext 0 0 0
    refine ⟨by rw [calls_eq, calls_eq, hsteps], fun σ ε p st => ⟨plot_congr _ _ hsteps p st, ?_⟩⟩
    rw [dispatched_eq, dispatched_eq, hsteps]
  · simp [Image.build, Image.invoke, Image.Note, Image.MoveXY, moveXY, NewImage, Step.zero,
      Image.Plot, plotSteps, Bound.plotter, Bound.MoveTo_eq, Bound.fresh, CmdInvalid]
  · rw [hcalls]
    simp [Bound.recorded, Bound.MoveTo_eq, Bound.fresh]

/-- Witness of C6 (amended): the text "x" inserted in front of MoveXY(1, 1). -/
theorem C6_note_skipped_witness :
    "x" ≠ "" ∧
      ((NewImage : Image ℚ).build ([] ++ BuilderCall.Note "x" :: [BuilderCall.MoveXY 1 1])).calls
        = ((NewImage : Image ℚ).build ([] ++ [BuilderCall.MoveXY 1 1])).calls :=
  ⟨by decide, ((C6_note_skipped "x" (by decide)).1 [] [BuilderCall.MoveXY 1 1]).1⟩

/-- C7, as stated, fails on LineXY(0, 0, 200): the call is not a Raise or Drill
with dz == 0, yet it appends no step. -/
theorem C7_lineXY_rejected_counterexample :
    ((NewImage : Image ℚ).build [BuilderCall.LineXY 0 0 200]).Steps.length = 0
    ∧ ([BuilderCall.LineXY (0 : ℚ) 0 200].filter (fun c => !c.zeroDelta)).length = 1 := by
  refine ⟨?_, ?_⟩
  · have h : ((200 : ℚ) < 0 ∨ (200 : ℚ) > 100) := Or.inr (by norm_num)
    simp [Image.build, Image.invoke, Image.LineXY, NewImage, h]
  · simp [BuilderCall.zeroDelta]

/-- C7, amended: after any sequence of builder calls applied to NewImage(),
len(Steps) is the number of calls that were neither a Raise or Drill with
dz == 0 nor a LineXY with power outside [0, 100], and the i-th recorded step is
the one that the i-th such call appends. -/
theorem C7_steps_follow_calls (cs : List (BuilderCall R)) :
    ((NewImage : Image R).build cs).Steps.length
        = (cs.filter (fun c => !c.zeroDelta && !c.badPower)).length
    ∧ List.Forall₂ (fun c s => ∀ im : Image R, (im.invoke c).1.Steps = im.Steps ++ [s])
        (cs.filter (fun c => !c.zeroDelta && !c.badPower)) ((NewImage : Image R).build cs).Steps := by
  have h : List.Forall₂ (fun c s => ∀ im : Image R, (im.invoke c).1.Steps = im.Steps ++ [s])
      (cs.filter (fun c => !c.zeroDelta && !c.badPower))
      ((NewImage : Image R).build cs).Steps := by
    rw [(build_steps _ _).1]
    simpa [NewImage] using kept_forall₂ cs
  exact ⟨h.length_eq.symm, h⟩

/-- C8: Raise(0) and Drill(0, power) return nil and leave the Image unchanged;
for dz != 0, Raise(dz) returns nil and appends exactly one step with Rel, not
Active, Z = dz, X = Y = 0, and Drill(dz, power) returns nil and appends exactly
one step with Rel, Active, Z = dz, Power = power, X = Y = 0, both with empty
Comment and Command = CmdInvalid. -/
theorem C8_raise_drill (im : Image R) (dz power : R) :
    im.Raise 0 = (im, none)
    ∧ im.Drill 0 power = (im, none)
    ∧ (dz ≠ 0 →
        im.Raise dz =
          ({ Steps := im.Steps ++
                [{ X := 0, Y := 0, Z := dz, Rel := true, Active := false, Power := 0,
                   Speed := 0, Comment := "", Command := CmdInvalid }],
             Copies := im.Copies }, none)
        ∧ im.Drill dz power =
          ({ Steps := im.Steps ++
                [{ X := 0, Y := 0, Z := dz, Rel := true, Active := true, Power := power,
                   Speed := 0, Comment := "", Command := CmdInvalid }],
             Copies := im.Copies }, none)) := by
  refine ⟨by simp [Image.Raise], by simp [Image.Drill], fun h => ⟨?_, ?_⟩⟩
  · simp [Image.Raise, h, Step.zero]
  · simp [Image.Drill, h, Step.zero]

/-- C9, at the failing input: after MoveTo(5, 5, 0) and Command(CmdSetOrigin) the
last recorded point of the Bound is (5, 5); a further Command(CmdSetOrigin)
followed by MoveTo(2, 2, 0) records (2, 2), not (7, 7), while MoveTo(2, 2, 0)
after the single reset records (7, 7). -/
theorem C9_double_reset_loses_origin :
    Bound.recorded [Call.MoveTo (5 : ℚ) 5 0, Call.Command CmdSetOrigin] Bound.fresh = [(5, 5)]
    ∧ Bound.recorded
        [Call.MoveTo (5 : ℚ) 5 0, Call.Command CmdSetOrigin, Call.Command CmdSetOrigin,
          Call.MoveTo 2 2 0] Bound.fresh = [(5, 5), (2, 2)]
    ∧ Bound.recorded
        [Call.MoveTo (5 : ℚ) 5 0, Call.Command CmdSetOrigin, Call.MoveTo 2 2 0] Bound.fresh
        = [(5, 5), (7, 7)] := by
  refine ⟨?_, ?_, ?_⟩
  · simp [Bound.recorded, Bound.MoveTo_eq, Bound.Command_setOrigin, Bound.fresh]
  · simp [Bound.recorded, Bound.MoveTo_eq, Bound.Command_setOrigin, Bound.fresh]
  · simp [Bound.recorded, Bound.MoveTo_eq, Bound.Command_setOrigin, Bound.fresh]
    norm_num

/-- C10, at the failing input: for MoveXY(5, 5), SetOrigin(), Raise(1) the call
Plot dispatches for the relative step is MoveTo(5, 5, 1), not MoveTo(0, 0, 1),
and a fresh Bound records (10, 10) for it, not the position (5, 5) of the
reset. -/
theorem C10_relative_after_reset :
    ((NewImage : Image ℚ).build
        [BuilderCall.MoveXY 5 5, BuilderCall.SetOrigin, BuilderCall.Raise 1]).calls
      = [Call.MoveTo 5 5 0, Call.Command CmdSetOrigin, Call.MoveTo 5 5 1]
    ∧ Bound.recorded ((NewImage : Image ℚ).build
        [BuilderCall.MoveXY 5 5, BuilderCall.SetOrigin, BuilderCall.Raise 1]).calls Bound.fresh
      = [(5, 5), (10, 10)] := by
  have h : ((NewImage : Image ℚ).build
        [BuilderCall.MoveXY 5 5, BuilderCall.SetOrigin, BuilderCall.Raise 1]).calls
      = [Call.MoveTo 5 5 0, Call.Command CmdSetOrigin, Call.MoveTo 5 5 1] := by
    rw [calls_eq]
    simp [Image.build, Image.invoke, Image.MoveXY, Image.SetOrigin, Image.Raise, moveXY,
      NewImage, Step.zero, callsFrom, CmdInvalid, CmdSetOrigin]
  refine ⟨h, ?_⟩
  rw [h]
  simp [Bound.recorded, Bound.MoveTo_eq, Bound.Command_setOrigin, Bound.fresh]
  norm_num

/-- C12: for every Command value other than CmdSetOrigin, CmdInvalid included,
Bound.Command and the Command of the unexported plotter return a non-nil error
and leave the receiver unchanged, while Command(CmdSetOrigin) returns nil on
both; and Plot through a Bound of an Image holding a step without comment whose
Command is neither CmdInvalid nor CmdSetOrigin returns a non-nil error. -/
theorem C12_unsupported_command (cmd : Command) (b : Bound R) (p : plotter R) (im : Image R) :
    (cmd ≠ CmdSetOrigin →
        (b.Command cmd).2 = some (Err.Unsupported cmd) ∧ (b.Command cmd).1 = b
        ∧ (p.Command cmd).2 = some (Err.Unsupported cmd) ∧ (p.Command cmd).1 = p)
    ∧ ((b.Command CmdInvalid).2 ≠ none ∧ (b.Command CmdInvalid).1 = b
        ∧ (p.Command CmdInvalid).2 ≠ none ∧ (p.Command CmdInvalid).1 = p)
    ∧ (b.Command CmdSetOrigin).2 = none
    ∧ (p.Command CmdSetOrigin).2 = none
    ∧ ((∃ s ∈ im.Steps, s.Comment = "" ∧ s.Command ≠ CmdInvalid ∧ s.Command ≠ CmdSetOrigin) →
        (im.Plot Bound.plotter b).2 ≠ none) := by
  refine ⟨fun h => ?_, ?_, ?_, ?_, fun h => ?_⟩
  · simp [Bound.Command, plotter.Command, h]
  · simp [Bound.Command, plotter.Command, CmdInvalid, CmdSetOrigin]
  · simp [Bound.Command]
  · simp [plotter.Command]
  · exact plotSteps_bound_unsupported im.Steps h 0 0 0 b

/-- C13: in MakeRGBA, for every Image whose bounds pass succeeds and every
width and height, the extents after the margin of 4 on each side are both at
least 8 (exactly 8 for a Bound without any point), so neither divisor is zero,
and the scale given to the similarity transform is
min(W / Wext, H / Hext). -/
theorem C13_scale (im : Image R) (width height : Int) (b : Bound R)
    (h : im.Plot Bound.plotter Bound.fresh = (b, none)) :
    (b.maxX + 4) - (b.minX - 4) ≥ 8
    ∧ (b.maxY + 4) - (b.minY - 4) ≥ 8
    ∧ ((Bound.fresh : Bound R).maxX + 4) - ((Bound.fresh : Bound R).minX - 4) = 8
    ∧ ((Bound.fresh : Bound R).maxY + 4) - ((Bound.fresh : Bound R).minY - 4) = 8
    ∧ (b.maxX + 4) - (b.minX - 4) ≠ 0
    ∧ (b.maxY + 4) - (b.minY - 4) ≠ 0
    ∧ (MakeRGBA.preview b width height).sim.scale
        = min ((width : R) / ((b.maxX + 4) - (b.minX - 4)))
            ((height : R) / ((b.maxY + 4) - (b.minY - 4)))
    ∧ (MakeRGBA im width height
        = match im.Plot plotter.toPlotter (MakeRGBA.preview b width height) with
          | (_, some err) => MakeResult.failed err
          | (p, none) => MakeResult.image (MakeRGBA.finish p height)) := by
  have hord := Bound.plot_ordered im
  rw [h] at hord
  obtain ⟨hx, hy⟩ := hord
  refine ⟨by linarith, by linarith, by simp [Bound.fresh]; norm_num,
    by simp [Bound.fresh]; norm_num, by linarith, by linarith, ?_, ?_⟩
  · simp only [MakeRGBA.preview, gt_iff_lt]
    split_ifs with hlt
    · exact (min_eq_right hlt.le).symm
    · exact (min_eq_left (not_lt.mp hlt)).symm
  · unfold MakeRGBA
    rw [h]

/-- Witness of C13: the Image of MoveXY(92, 92), whose bounds pass succeeds,
with width 8 and height 8. -/
theorem C13_scale_witness :
    ((NewImage : Image ℚ).build [BuilderCall.MoveXY 92 92]).Plot Bound.plotter Bound.fresh
        = ({ pts := 1, oX := 0, oY := 0, lastX := 92, lastY := 92,
             minX := 92, maxX := 92, minY := 92, maxY := 92 }, none)
    ∧ ((92 : ℚ) + 4) - (92 - 4) ≥ 8 :=
  have h : ((NewImage : Image ℚ).build [BuilderCall.MoveXY 92 92]).Plot Bound.plotter Bound.fresh
        = ({ pts := 1, oX := 0, oY := 0, lastX := 92, lastY := 92,
             minX := 92, maxX := 92, minY := 92, maxY := 92 }, none) := by
    simp [Image.build, Image.invoke, Image.MoveXY, moveXY, NewImage, Step.zero,
      Image.Plot, plotSteps, Bound.plotter, Bound.MoveTo_eq, Bound.fresh, CmdInvalid]
  ⟨h, (C13_scale ((NewImage : Image ℚ).build [BuilderCall.MoveXY 92 92]) 8 8 _ h).1⟩

/-- C15: NewImage() has no Steps and Copies = 1; every builder call leaves the
Steps it found as the first Steps of the result, appends at most one, and
leaves Copies unchanged; MoveXY and SetOrigin always return nil and append
exactly one step, absolute and not active with X = x, Y = y, respectively with
Command = CmdSetOrigin and no coordinates. -/
theorem C15_append_only (im : Image R) (c : BuilderCall R) (x y : R) :
    (NewImage : Image R).Steps = [] ∧ (NewImage : Image R).Copies = 1
    ∧ (∃ l, (im.invoke c).1.Steps = im.Steps ++ l ∧ l.length ≤ 1)
    ∧ (im.invoke c).1.Copies = im.Copies
    ∧ im.MoveXY x y =
        ({ Steps := im.Steps ++
              [{ X := x, Y := y, Z := 0, Rel := false, Active := false, Power := 0,
                 Speed := 0, Comment := "", Command := CmdInvalid }],
           Copies := im.Copies }, none)
    ∧ im.SetOrigin =
        ({ Steps := im.Steps ++
              [{ X := 0, Y := 0, Z := 0, Rel := false, Active := false, Power := 0,
                 Speed := 0, Comment := "", Command := CmdSetOrigin }],
           Copies := im.Copies }, none) := by
  refine ⟨rfl, rfl, ⟨c.appended, (invoke_steps im c).1, ?_⟩, (invoke_steps im c).2, ?_, ?_⟩
  · rcases hk : (!c.zeroDelta && !c.badPower) with _ | _
    · simp [appended_of_skipped c hk]
    · obtain ⟨s, hs⟩ := appended_of_kept c hk
      simp [hs]
  · simp [Image.MoveXY, moveXY, Step.zero]
  · simp [Image.SetOrigin, Step.zero]

/-- C17, at the failing input: Drill(-1, 500) returns nil and appends an active
step with Power = 500, outside [0, 100], where LineXY(0, 0, 500) returns
ErrInvalidPower and appends nothing. -/
theorem C17_drill_power_unchecked :
    (NewImage : Image ℚ).Drill (-1) 500
        = ({ Steps := [{ X := 0, Y := 0, Z := -1, Rel := true, Active := true, Power := 500,
                         Speed := 0, Comment := "", Command := CmdInvalid }],
             Copies := 1 }, none)
    ∧ ¬ ((500 : ℚ) ≤ 100)
    ∧ (NewImage : Image ℚ).LineXY 0 0 500 = (NewImage, some Err.ErrInvalidPower) := by
  refine ⟨?_, by norm_num, ?_⟩
  · simp [Image.Drill, NewImage, Step.zero]
  · have h : ((500 : ℚ) < 0 ∨ (500 : ℚ) > 100) := Or.inr (by norm_num)
    simp [Image.LineXY, h]

/-- C20: for every Image obtained from NewImage() by builder calls, every
step has Command CmdInvalid or CmdSetOrigin, Plot through a fresh Bound returns
nil, Plot through the unexported plotter returns nil, and MakeRGBA ends neither
in its fatal branch nor with an error. -/
theorem C20_builder_images_replay (cs : List (BuilderCall R)) (width height : Int)
    (p0 : plotter R) :
    (∀ s ∈ ((NewImage : Image R).build cs).Steps,
        s.Command = CmdInvalid ∨ s.Command = CmdSetOrigin)
    ∧ (((NewImage : Image R).build cs).Plot Bound.plotter Bound.fresh).2 = none
    ∧ (((NewImage : Image R).build cs).Plot plotter.toPlotter p0).2 = none
    ∧ (∃ p, MakeRGBA ((NewImage : Image R).build cs) width height = MakeResult.image p) := by
  have hcmd := build_command (R := R) cs
  have hb : ∀ b : Bound R, (((NewImage : Image R).build cs).Plot Bound.plotter b).2 = none :=
    fun b => plotSteps_ok Bound.plotter (by simp [Bound.plotter, Bound.Command])
      (by simp [Bound.plotter, Bound.MoveTo_eq])
      (by simp [Bound.plotter, Bound.LineTo, Bound.MoveTo_eq]) _ hcmd 0 0 0 b
  have hp : ∀ p : plotter R, (((NewImage : Image R).build cs).Plot plotter.toPlotter p).2 = none :=
    fun p => plotSteps_ok plotter.toPlotter (by simp [plotter.toPlotter, plotter.Command])
      (by simp [plotter.toPlotter, plotter.MoveTo])
      (by simp [plotter.toPlotter, plotter.LineTo]) _ hcmd 0 0 0 p
  refine ⟨hcmd, hb _, hp _, ?_⟩
  rcases h1 : ((NewImage : Image R).build cs).Plot Bound.plotter Bound.fresh with ⟨b, e1⟩
  have he1 : e1 = none := by
    have := hb Bound.fresh
    rw [h1] at this
    exact this
  subst he1
  rcases h2 : ((NewImage : Image R).build cs).Plot plotter.toPlotter
      (MakeRGBA.preview b width height) with ⟨p, e2⟩
  have he2 : e2 = none := by
    have := hp (MakeRGBA.preview b width height)
    rw [h2] at this
    exact this
  subst he2
  exact ⟨MakeRGBA.finish p height, by simp only [MakeRGBA, h1, h2]⟩

/-- C18: for a step of the log with empty Comment and Command = CmdInvalid,
the call of the replay is MoveTo of the previous pen plus its (X, Y, Z) when
the step is relative, and LineTo or MoveTo of its own (X, Y) with the z of the
previous pen when it is absolute, whatever its Z field; the previous pen is
that of the last MoveTo or LineTo dispatched before, (0, 0, 0) if none; its z
is the sum of the Z fields of the earlier relative steps with empty Comment
and Command = CmdInvalid; the calls dispatched to any Plotter are the first
calls of that replay, and every MoveTo or LineTo among them is the call of such
a step. -/
theorem C18_z_only_relative (im : Image R) (p : Plotter σ ε R) (st : σ)
    (pre post : List (Step R)) (s : Step R) (hsplit : im.Steps = pre ++ s :: post)
    (hc : s.Comment = "") (hm : s.Command = CmdInvalid) :
    im.calls[(pre.filter (fun t => t.Comment = "")).length]?
      = some (if s.Rel = true then
          Call.MoveTo
            ((lastPen (im.calls.take (pre.filter (fun t => t.Comment = "")).length)).1 + s.X)
            ((lastPen (im.calls.take (pre.filter (fun t => t.Comment = "")).length)).2.1 + s.Y)
            ((lastPen (im.calls.take (pre.filter (fun t => t.Comment = "")).length)).2.2 + s.Z)
        else if s.Active = true then
          Call.LineTo s.X s.Y
            (lastPen (im.calls.take (pre.filter (fun t => t.Comment = "")).length)).2.2
        else
          Call.MoveTo s.X s.Y
            (lastPen (im.calls.take (pre.filter (fun t => t.Comment = "")).length)).2.2)
    ∧ (lastPen (im.calls.take (pre.filter (fun t => t.Comment = "")).length)).2.2
        = ((pre.filter
            (fun t => t.Comment = "" ∧ t.Command = CmdInvalid ∧ t.Rel = true)).map Step.Z).sum
    ∧ (∃ x y, im.calls[(pre.filter (fun t => t.Comment = "")).length]?
          = some (Call.MoveTo x y (((pre ++ [s]).filter
              (fun t => t.Comment = "" ∧ t.Command = CmdInvalid ∧ t.Rel = true)).map Step.Z).sum)
        ∨ im.calls[(pre.filter (fun t => t.Comment = "")).length]?
          = some (Call.LineTo x y (((pre ++ [s]).filter
              (fun t => t.Comment = "" ∧ t.Command = CmdInvalid ∧ t.Rel = true)).map Step.Z).sum))
    ∧ (im.dispatched p st).map Prod.fst = im.calls.take (im.dispatched p st).length
    ∧ (∀ k c, im.calls[k]? = some c → c.isMove = true →
        ∃ pre1 s1 post1, im.Steps = pre1 ++ s1 :: post1 ∧ s1.Comment = ""
          ∧ s1.Command = CmdInvalid
          ∧ (pre1.filter (fun t => t.Comment = "")).length = k) := by
  have hlen := callsFrom_length pre (0 : R) 0 0
  have hcalls : im.calls = callsFrom pre 0 0 0
      ++ callsFrom (s :: post) (penOf (0, 0, 0) (callsFrom pre (0 : R) 0 0)).1
          (penOf (0, 0, 0) (callsFrom pre (0 : R) 0 0)).2.1
          (penOf (0, 0, 0) (callsFrom pre (0 : R) 0 0)).2.2 := by
    rw [calls_eq, hsplit, callsFrom_append]
  have htake : im.calls.take (pre.filter (fun t => t.Comment = "")).length
      = callsFrom pre 0 0 0 := by
    rw [hcalls, ← hlen, List.take_left]
  have hz := penOf_callsFrom_z pre (0 : R) 0 0
  rw [zero_add] at hz
  have hget : im.calls[(pre.filter (fun t => t.Comment = "")).length]?
      = (callsFrom (s :: post) (penOf (0, 0, 0) (callsFrom pre (0 : R) 0 0)).1
          (penOf (0, 0, 0) (callsFrom pre (0 : R) 0 0)).2.1
          (penOf (0, 0, 0) (callsFrom pre (0 : R) 0 0)).2.2)[0]? := by
    rw [hcalls, ← hlen, List.getElem?_append_right (le_refl _)]
    simp
  have hfirst : im.calls[(pre.filter (fun t => t.Comment = "")).length]?
      = some (if s.Rel = true then
          Call.MoveTo
            ((lastPen (im.calls.take (pre.filter (fun t => t.Comment = "")).length)).1 + s.X)
            ((lastPen (im.calls.take (pre.filter (fun t => t.Comment = "")).length)).2.1 + s.Y)
            ((lastPen (im.calls.take (pre.filter (fun t => t.Comment = "")).length)).2.2 + s.Z)
        else if s.Active = true then
          Call.LineTo s.X s.Y
            (lastPen (im.calls.take (pre.filter (fun t => t.Comment = "")).length)).2.2
        else
          Call.MoveTo s.X s.Y
            (lastPen (im.calls.take (pre.filter (fun t => t.Comment = "")).length)).2.2) := by
    rw [hget, htake]
    by_cases h3 : s.Rel = true
    · simp [callsFrom, hc, hm, h3, lastPen]
    · by_cases h4 : s.Active = true
      · simp [callsFrom, hc, hm, h3, h4, lastPen]
      · simp [callsFrom, hc, hm, h3, h4, lastPen]
  have hprev : (lastPen (im.calls.take (pre.filter (fun t => t.Comment = "")).length)).2.2
      = ((pre.filter
          (fun t => t.Comment = "" ∧ t.Command = CmdInvalid ∧ t.Rel = true)).map Step.Z).sum := by
    rw [htake]
    exact hz
  have hrel : s.Rel = true →
      (((pre ++ [s]).filter
        (fun t => t.Comment = "" ∧ t.Command = CmdInvalid ∧ t.Rel = true)).map Step.Z).sum
      = (lastPen (im.calls.take (pre.filter (fun t => t.Comment = "")).length)).2.2 + s.Z := by
    intro h3
    rw [hprev]
    simp [List.filter_append, hc, hm, h3]
  have habs : ¬ s.Rel = true →
      (((pre ++ [s]).filter
        (fun t => t.Comment = "" ∧ t.Command = CmdInvalid ∧ t.Rel = true)).map Step.Z).sum
      = (lastPen (im.calls.take (pre.filter (fun t => t.Comment = "")).length)).2.2 := by
    intro h3
    rw [hprev]
    simp [List.filter_append, hc, hm, h3]
  refine ⟨hfirst, hprev, ?_, dispatched_take im p st, moves_come_from_steps im⟩
  by_cases h3 : s.Rel = true
  · rw [hrel h3, hfirst, if_pos h3]
    exact ⟨_, _, Or.inl rfl⟩
  · rw [habs h3, hfirst, if_neg h3]
    by_cases h4 : s.Active = true
    · rw [if_pos h4]
      exact ⟨_, _, Or.inr rfl⟩
    · rw [if_neg h4]
      exact ⟨_, _, Or.inl rfl⟩

/-- Witness of C18: the log of a relative step with Z = 1 followed by the
absolute step of MoveXY(2, 3), for the second step. -/
theorem C18_z_only_relative_witness :
    ((Image.mk [{ (Step.zero : Step ℚ) with Z := 1, Rel := true }, moveXY 2 3] 1).Steps
      = [{ (Step.zero : Step ℚ) with Z := 1, Rel := true }] ++ moveXY 2 3 :: [])
    ∧ (moveXY (2 : ℚ) 3).Comment = ""
    ∧ (moveXY (2 : ℚ) 3).Command = CmdInvalid
    ∧ (lastPen ((Image.mk [{ (Step.zero : Step ℚ) with Z := 1, Rel := true }, moveXY 2 3] 1).calls.take
        ([{ (Step.zero : Step ℚ) with Z := 1, Rel := true }].filter
          (fun t => t.Comment = "")).length)).2.2
      = (([{ (Step.zero : Step ℚ) with Z := 1, Rel := true }].filter
          (fun t => t.Comment = "" ∧ t.Command = CmdInvalid ∧ t.Rel = true)).map Step.Z).sum :=
  ⟨rfl, rfl, rfl,
    (C18_z_only_relative
      (Image.mk [{ (Step.zero : Step ℚ) with Z := 1, Rel := true }, moveXY 2 3] 1)
      (nullPlotter : Plotter Unit Empty ℚ) ()
      [{ (Step.zero : Step ℚ) with Z := 1, Rel := true }] [] (moveXY 2 3) rfl rfl rfl).2.1⟩

/-- C11, as stated, fails on SetSpeed(false, 3000) inserted in front of
MoveXY(5, 5): Plot dispatches MoveTo(0, 0, 0) for the inserted step, a fresh
Bound records (0, 0), and minX is 0 instead of 5. -/
theorem C11_set_speed_widens_box_counterexample :
    (((NewImage : Image ℚ).build
        ([] ++ BuilderCall.SetSpeed false 3000 :: [BuilderCall.MoveXY 5 5])).Plot
        Bound.plotter Bound.fresh).1.minX = 0
    ∧ (((NewImage : Image ℚ).build ([] ++ [BuilderCall.MoveXY 5 5])).Plot
        Bound.plotter Bound.fresh).1.minX = 5 := by
  refine ⟨?_, ?_⟩
  · simp [Image.build, Image.invoke, Image.SetSpeed, Image.MoveXY, moveXY, NewImage, Step.zero,
      Image.Plot, plotSteps, Bound.plotter, Bound.MoveTo_eq, Bound.fresh, CmdInvalid]
  · simp [Image.build, Image.invoke, Image.MoveXY, moveXY, NewImage, Step.zero,
      Image.Plot, plotSteps, Bound.plotter, Bound.MoveTo_eq, Bound.fresh, CmdInvalid]

/-- C11, amended: inserting SetSpeed(active, speed) at any position of a
sequence of builder calls leaves the running pen of the replay unchanged: the
calls dispatched for the other steps keep their arguments, and the inserted
step dispatches one MoveTo to the position where the pen already is; the box
(minX, maxX, minY, maxY) of a fresh Bound is unchanged when the call dispatched
just before the inserted one is a MoveTo or LineTo. -/
theorem C11_set_speed_keeps_pen (cs1 cs2 : List (BuilderCall R)) (active : Bool) (speed : Int) :
    ∃ post : List (Call R),
      ((NewImage : Image R).build (cs1 ++ cs2)).calls
        = ((NewImage : Image R).build cs1).calls ++ post
      ∧ ((NewImage : Image R).build (cs1 ++ BuilderCall.SetSpeed active speed :: cs2)).calls
        = ((NewImage : Image R).build cs1).calls
          ++ Call.MoveTo (lastPen ((NewImage : Image R).build cs1).calls).1
              (lastPen ((NewImage : Image R).build cs1).calls).2.1
              (lastPen ((NewImage : Image R).build cs1).calls).2.2 :: post
      ∧ lastPen (((NewImage : Image R).build cs1).calls
          ++ [Call.MoveTo (lastPen ((NewImage : Image R).build cs1).calls).1
              (lastPen ((NewImage : Image R).build cs1).calls).2.1
              (lastPen ((NewImage : Image R).build cs1).calls).2.2])
        = lastPen ((NewImage : Image R).build cs1).calls
      ∧ ((∃ pre c, ((NewImage : Image R).build cs1).calls = pre ++ [c] ∧ c.isMove = true) →
          (((NewImage : Image R).build (cs1 ++ BuilderCall.SetSpeed active speed :: cs2)).Plot
              Bound.plotter Bound.fresh).1.minX
            = (((NewImage : Image R).build (cs1 ++ cs2)).Plot Bound.plotter Bound.fresh).1.minX
          ∧ (((NewImage : Image R).build (cs1 ++ BuilderCall.SetSpeed active speed :: cs2)).Plot
              Bound.plotter Bound.fresh).1.maxX
            = (((NewImage : Image R).build (cs1 ++ cs2)).Plot Bound.plotter Bound.fresh).1.maxX
          ∧ (((NewImage : Image R).build (cs1 ++ BuilderCall.SetSpeed active speed :: cs2)).Plot
              Bound.plotter Bound.fresh).1.minY
            = (((NewImage : Image R).build (cs1 ++ cs2)).Plot Bound.plotter Bound.fresh).1.minY
          ∧ (((NewImage : Image R).build (cs1 ++ BuilderCall.SetSpeed active speed :: cs2)).Plot
              Bound.plotter Bound.fresh).1.maxY
            = (((NewImage : Image R).build (cs1 ++ cs2)).Plot
                Bound.plotter Bound.fresh).1.maxY) := by
  have hsp : (BuilderCall.SetSpeed active speed : BuilderCall R).appended
      = [{ (Step.zero : Step R) with Speed := speed, Rel := true, Active := active }] := by
    simp [BuilderCall.appended, Image.invoke, Image.SetSpeed, NewImage]
  have h1 : ((NewImage : Image R).build cs1).calls
      = callsFrom (cs1.flatMap BuilderCall.appended) 0 0 0 := by
    rw [calls_eq, (build_steps _ _).1]
    simp [NewImage]
  have hA : ((NewImage : Image R).build (cs1 ++ cs2)).calls
      = ((NewImage : Image R).build cs1).calls
        ++ callsFrom (cs2.flatMap BuilderCall.appended)
            (lastPen ((NewImage : Image R).build cs1).calls).1
            (lastPen ((NewImage : Image R).build cs1).calls).2.1
            (lastPen ((NewImage : Image R).build cs1).calls).2.2 := by
    rw [h1, calls_eq, (build_steps _ _).1]
    simp only [NewImage, List.nil_append, List.flatMap_append]
    rw [callsFrom_append]
    rfl
  have hB : ((NewImage : Image R).build (cs1 ++ BuilderCall.SetSpeed active speed :: cs2)).calls
      = ((NewImage : Image R).build cs1).calls
        ++ Call.MoveTo (lastPen ((NewImage : Image R).build cs1).calls).1
            (lastPen ((NewImage : Image R).build cs1).calls).2.1
            (lastPen ((NewImage : Image R).build cs1).calls).2.2
          :: callsFrom (cs2.flatMap BuilderCall.appended)
            (lastPen ((NewImage : Image R).build cs1).calls).1
            (lastPen ((NewImage : Image R).build cs1).calls).2.1
            (lastPen ((NewImage : Image R).build cs1).calls).2.2 := by
    rw [h1, calls_eq, (build_steps _ _).1]
    simp only [NewImage, List.nil_append, List.flatMap_append, List.flatMap_cons, hsp,
      List.singleton_append]
    rw [callsFrom_append]
    simp [callsFrom, Step.zero, CmdInvalid, lastPen]
  refine ⟨_, hA, hB, ?_, ?_⟩
  · rw [lastPen, penOf_append]
    simp [penOf]
  · rintro ⟨pre, c, hpre, hmove⟩
    have hsA := plot_state_of_none _ Bound.plotter Bound.fresh
      (build_plot_bound_ok (R := R) (cs1 ++ cs2) Bound.fresh)
    have hsB := plot_state_of_none _ Bound.plotter Bound.fresh
      (build_plot_bound_ok (R := R) (cs1 ++ BuilderCall.SetSpeed active speed :: cs2) Bound.fresh)
    rw [hsA, hsB, hA, hB, hpre]
    have key : ∀ (x y z : R), c = Call.MoveTo x y z ∨ c = Call.LineTo x y z →
        (Bound.plotter.feed
          ((pre ++ [c]) ++ Call.MoveTo (lastPen (pre ++ [c])).1 (lastPen (pre ++ [c])).2.1
              (lastPen (pre ++ [c])).2.2
            :: callsFrom (cs2.flatMap BuilderCall.appended) (lastPen (pre ++ [c])).1
                (lastPen (pre ++ [c])).2.1 (lastPen (pre ++ [c])).2.2) Bound.fresh).SameBox
        (Bound.plotter.feed
          ((pre ++ [c]) ++ callsFrom (cs2.flatMap BuilderCall.appended) (lastPen (pre ++ [c])).1
                (lastPen (pre ++ [c])).2.1 (lastPen (pre ++ [c])).2.2) Bound.fresh) := by
      intro x y z hcz
      have hpen : lastPen (pre ++ [c]) = (x, y, z) := by
        rw [lastPen, penOf_append]
        rcases hcz with rfl | rfl <;> simp [penOf]
      have hfeed : Bound.plotter.feed (pre ++ [c]) (Bound.fresh : Bound R)
          = ((Bound.plotter.feed pre (Bound.fresh : Bound R)).MoveTo x y z).1 := by
        rw [feed_append]
        rcases hcz with rfl | rfl <;>
          simp [Plotter.feed, Plotter.call, Bound.plotter, Bound.LineTo]
      rw [hpen, feed_append, feed_append _ (pre ++ [c]), hfeed]
      have hcons : ∀ (cs : List (Call R)) (b : Bound R),
          Bound.plotter.feed (Call.MoveTo x y z :: cs) b
            = Bound.plotter.feed cs (b.MoveTo x y z).1 := by
        intro cs b
        simp [Plotter.feed, Plotter.call, Bound.plotter]
      rw [hcons]
      exact Bound.sameBox_feed _ _ _ (Bound.sameBox_repeat _ x y z z)
    have hbox : (Bound.plotter.feed
          ((pre ++ [c]) ++ Call.MoveTo (lastPen (pre ++ [c])).1 (lastPen (pre ++ [c])).2.1
              (lastPen (pre ++ [c])).2.2
            :: callsFrom (cs2.flatMap BuilderCall.appended) (lastPen (pre ++ [c])).1
                (lastPen (pre ++ [c])).2.1 (lastPen (pre ++ [c])).2.2) Bound.fresh).SameBox
        (Bound.plotter.feed
          ((pre ++ [c]) ++ callsFrom (cs2.flatMap BuilderCall.appended) (lastPen (pre ++ [c])).1
                (lastPen (pre ++ [c])).2.1 (lastPen (pre ++ [c])).2.2) Bound.fresh) := by
      cases c with
      | Command cmd => simp [Call.isMove] at hmove
      | MoveTo x y z => exact key x y z (Or.inl rfl)
      | LineTo x y z => exact key x y z (Or.inr rfl)
    obtain ⟨_, _, _, _, b5, b6, b7, b8, _, _⟩ := hbox
    exact ⟨b5, b6, b7, b8⟩

/-- C19: for a sequence of Command, MoveTo and LineTo calls in which every
Command other than those before the first MoveTo or LineTo directly follows a
MoveTo or LineTo, a fresh Bound and a fresh unexported plotter agree at every
MoveTo and LineTo: the (lastX, lastY) that the Bound stores is the
(oX + x, oY + y) that the plotter gives to its transform, and the two origin
accumulators (oX, oY) are equal after every call. -/
theorem C19_bound_preview_agree (cs : List (Call R)) (dy : R) (sim : Similarity R)
    (h : resetsFollowMoves false false cs = true) :
    Bound.recorded cs Bound.fresh
        = plotter.transformed cs
            { dy := dy, sim := sim, r := [], oX := 0, oY := 0, penX := 0, penY := 0, penZ := 0 }
    ∧ ∀ k, (Bound.plotter.feed (cs.take k) Bound.fresh).oX
          = (plotter.toPlotter.feed (cs.take k)
              { dy := dy, sim := sim, r := [], oX := 0, oY := 0, penX := 0, penY := 0,
                penZ := 0 }).oX
        ∧ (Bound.plotter.feed (cs.take k) Bound.fresh).oY
          = (plotter.toPlotter.feed (cs.take k)
              { dy := dy, sim := sim, r := [], oX := 0, oY := 0, penX := 0, penY := 0,
                penZ := 0 }).oY :=
  agree_aux cs Bound.fresh _ false false (by simp [Bound.fresh])
    (fun hf => absurd hf (by simp)) (fun _ => by simp [Bound.fresh]) h

/-- Witness of C19: MoveTo(5, 5, 0), Command(CmdSetOrigin), LineTo(2, 2, 0), in
which the reset directly follows a MoveTo; both plotters see (5, 5) and
(7, 7). -/
theorem C19_bound_preview_agree_witness :
    resetsFollowMoves false false
        [Call.MoveTo (5 : ℚ) 5 0, Call.Command CmdSetOrigin, Call.LineTo 2 2 0] = true
    ∧ Bound.recorded [Call.MoveTo (5 : ℚ) 5 0, Call.Command CmdSetOrigin, Call.LineTo 2 2 0]
          Bound.fresh
        = plotter.transformed
            [Call.MoveTo (5 : ℚ) 5 0, Call.Command CmdSetOrigin, Call.LineTo 2 2 0]
            { dy := 8, sim := ⟨0, 0, 0, 0, 1, 0⟩, r := [], oX := 0, oY := 0, penX := 0,
              penY := 0, penZ := 0 } :=
  ⟨rfl, (C19_bound_preview_agree
      [Call.MoveTo (5 : ℚ) 5 0, Call.Command CmdSetOrigin, Call.LineTo 2 2 0] 8
      ⟨0, 0, 0, 0, 1, 0⟩ rfl).1⟩

/-- C14, at the failing input: for MoveXY(92, 92), SetOrigin(), SetOrigin(),
MoveXY(92, 92) and a raster of 8 by 8, the bounds pass measures the box
[92, 92] x [92, 92], the scale is 1 and the centre (92, 92), but the unexported
plotter transforms (184, 184) for the last step and moves the rasterizer to the
device point (96, -88), outside [0, 8] x [0, 8]. -/
theorem C14_double_reset_leaves_raster :
    ((NewImage : Image ℚ).build
        [BuilderCall.MoveXY 92 92, BuilderCall.SetOrigin, BuilderCall.SetOrigin,
          BuilderCall.MoveXY 92 92]).Plot Bound.plotter Bound.fresh
      = ({ pts := 2, oX := 0, oY := 0, lastX := 92, lastY := 92,
           minX := 92, maxX := 92, minY := 92, maxY := 92 }, none)
    ∧ (MakeRGBA.preview
        ({ pts := 2, oX := 0, oY := 0, lastX := 92, lastY := 92,
           minX := 92, maxX := 92, minY := 92, maxY := 92 } : Bound ℚ) 8 8)
      = { dy := 8, sim := { fromX := 92, fromY := 92, toX := 4, toY := 4, scale := 1, theta := 0 },
          r := [], oX := 0, oY := 0, penX := 0, penY := 0, penZ := 0 }
    ∧ plotter.transformed ((NewImage : Image ℚ).build
        [BuilderCall.MoveXY 92 92, BuilderCall.SetOrigin, BuilderCall.SetOrigin,
          BuilderCall.MoveXY 92 92]).calls
        { dy := 8, sim := { fromX := 92, fromY := 92, toX := 4, toY := 4, scale := 1, theta := 0 },
          r := [], oX := 0, oY := 0, penX := 0, penY := 0, penZ := 0 }
      = [(92, 92), (184, 184)]
    ∧ (∃ p, MakeRGBA ((NewImage : Image ℚ).build
          [BuilderCall.MoveXY 92 92, BuilderCall.SetOrigin, BuilderCall.SetOrigin,
            BuilderCall.MoveXY 92 92]) 8 8 = MakeResult.image p
        ∧ p.r.take 2 = [RasterOp.MoveTo 4 4, RasterOp.MoveTo 96 (-88)])
    ∧ ¬ ((96 : ℚ) ≤ 8) ∧ ¬ ((0 : ℚ) ≤ -88) := by
  have hsteps : ((NewImage : Image ℚ).build
        [BuilderCall.MoveXY 92 92, BuilderCall.SetOrigin, BuilderCall.SetOrigin,
          BuilderCall.MoveXY 92 92]).Steps
      = [moveXY 92 92, { (Step.zero : Step ℚ) with Command := CmdSetOrigin },
          { (Step.zero : Step ℚ) with Command := CmdSetOrigin }, moveXY 92 92] := by
    simp [Image.build, Image.invoke, Image.MoveXY, Image.SetOrigin, NewImage]
  have hb : ((NewImage : Image ℚ).build
        [BuilderCall.MoveXY 92 92, BuilderCall.SetOrigin, BuilderCall.SetOrigin,
          BuilderCall.MoveXY 92 92]).Plot Bound.plotter Bound.fresh
      = ({ pts := 2, oX := 0, oY := 0, lastX := 92, lastY := 92,
           minX := 92, maxX := 92, minY := 92, maxY := 92 }, none) := by
    simp [Image.Plot, hsteps, moveXY, Step.zero, plotSteps, Bound.plotter, Bound.MoveTo_eq,
      Bound.Command, Bound.fresh, CmdInvalid, CmdSetOrigin]
  have hpre : (MakeRGBA.preview
        ({ pts := 2, oX := 0, oY := 0, lastX := 92, lastY := 92,
           minX := 92, maxX := 92, minY := 92, maxY := 92 } : Bound ℚ) 8 8)
      = { dy := 8, sim := { fromX := 92, fromY := 92, toX := 4, toY := 4, scale := 1, theta := 0 },
          r := [], oX := 0, oY := 0, penX := 0, penY := 0, penZ := 0 } := by
    simp only [MakeRGBA.preview]
    norm_num
  have hcalls : ((NewImage : Image ℚ).build
        [BuilderCall.MoveXY 92 92, BuilderCall.SetOrigin, BuilderCall.SetOrigin,
          BuilderCall.MoveXY 92 92]).calls
      = [Call.MoveTo 92 92 0, Call.Command CmdSetOrigin, Call.Command CmdSetOrigin,
          Call.MoveTo 92 92 0] := by
    rw [calls_eq, hsteps]
    simp [callsFrom, moveXY, Step.zero, CmdInvalid, CmdSetOrigin]
  have hp : ((NewImage : Image ℚ).build
        [BuilderCall.MoveXY 92 92, BuilderCall.SetOrigin, BuilderCall.SetOrigin,
          BuilderCall.MoveXY 92 92]).Plot plotter.toPlotter
        { dy := 8, sim := { fromX := 92, fromY := 92, toX := 4, toY := 4, scale := 1, theta := 0 },
          r := [], oX := 0, oY := 0, penX := 0, penY := 0, penZ := 0 }
      = ({ dy := 8,
           sim := { fromX := 92, fromY := 92, toX := 4, toY := 4, scale := 1, theta := 0 },
           r := [RasterOp.MoveTo 4 4, RasterOp.MoveTo 96 (-88)],
           oX := 92, oY := 92, penX := 92, penY := 92, penZ := 0 }, none) := by
    simp [Image.Plot, hsteps, moveXY, Step.zero, plotSteps, plotter.toPlotter, plotter.MoveTo,
      plotter.Command, Similarity.Apply, CmdInvalid, CmdSetOrigin]
    norm_num
  refine ⟨hb, hpre, ?_, ?_, by norm_num, by norm_num⟩
  · rw [hcalls]
    simp [plotter.transformed, plotter.MoveTo, plotter.Command]
    norm_num
  · refine ⟨MakeRGBA.finish
      { dy := 8, sim := { fromX := 92, fromY := 92, toX := 4, toY := 4, scale := 1, theta := 0 },
        r := [RasterOp.MoveTo 4 4, RasterOp.MoveTo 96 (-88)],
        oX := 92, oY := 92, penX := 92, penY := 92, penZ := 0 } 8, ?_, ?_⟩
    · unfold MakeRGBA
      rw [hb]
      simp only [hpre, hp]
    · simp [MakeRGBA.finish]

/-- C16, as stated, fails for a Plotter that writes to the Image: the Image
built by MoveXY(1, 1) is replayed, through its pointer, by a Plotter that holds
the same pointer and whose MoveTo assigns `im.Steps = nil` and `im.Copies = 2`.
Plot dispatches MoveTo(1, 1, 0) and returns nil; before the replay the Image
has the Steps of MoveXY(1, 1) and Copies = 1, after it no Steps and Copies = 2,
and a second replay through the same Plotter dispatches nothing. -/
theorem C16_plotter_writes_image_counterexample :
    (Memory.ofImage ((NewImage : Image ℚ).build [BuilderCall.MoveXY 1 1])).image 0
        = { Steps := [moveXY 1 1], Copies := 1 }
    ∧ dispatchedPtr 0 (scribbler 0)
          (Memory.ofImage ((NewImage : Image ℚ).build [BuilderCall.MoveXY 1 1]), ())
        = [(Call.MoveTo 1 1 0, none)]
    ∧ (PlotPtr 0 (scribbler 0)
          (Memory.ofImage ((NewImage : Image ℚ).build [BuilderCall.MoveXY 1 1]), ())).2 = none
    ∧ (PlotPtr 0 (scribbler 0)
          (Memory.ofImage ((NewImage : Image ℚ).build [BuilderCall.MoveXY 1 1]), ())).1.1.image 0
        = { Steps := [], Copies := 2 }
    ∧ dispatchedPtr 0 (scribbler 0)
          (PlotPtr 0 (scribbler 0)
            (Memory.ofImage ((NewImage : Image ℚ).build [BuilderCall.MoveXY 1 1]), ())).1
        = [] := by
  have hm : PlotPtr 0 (scribbler 0)
        (Memory.ofImage ((NewImage : Image ℚ).build [BuilderCall.MoveXY 1 1]), ())
      = (({ images := Function.update (fun _ => { Steps := { arr := 0, len := 1, cap := 1 },
                                                  Copies := 1 }) 0
                        { Steps := { arr := 0, len := 0, cap := 0 }, Copies := 2 },
            arrays := fun _ i => i,
            steps := fun i => [moveXY (1 : ℚ) 1].getD i Step.zero }, ()), none) := by
    simp [PlotPtr, plotRange, Memory.ofImage, Image.build, Image.invoke, Image.MoveXY, NewImage,
      moveXY, Step.zero, scribbler, CmdInvalid]
  refine ⟨?_, ?_, ?_, ?_, ?_⟩
  · rw [Memory.image_ofImage]
    simp [Image.build, Image.invoke, Image.MoveXY, NewImage]
  · simp [dispatchedPtr, PlotPtr, plotRange, Memory.ofImage, Image.build, Image.invoke,
      Image.MoveXY, NewImage, moveXY, Step.zero, scribbler, Plotter.recordingPtr, CmdInvalid]
  · rw [hm]
  · rw [hm]
    simp [Memory.image, Memory.load]
  · rw [hm]
    simp [dispatchedPtr, PlotPtr, plotRange]

/-- C16, amended.  Plot is taken on its receiver, the pointer `im *Image`: the
slice `im.Steps` and the Steps behind it are read from memory, and the methods
of a Plotter act on the program state, which is the memory and the receiver of
the Plotter.
(a) Two replays, in program states related by `Rel`, where related states hold
equal Steps behind the two slices being replayed and where the two Plotters
answer every call with the same error and lead to related states, dispatch the
same calls with the same arguments and answers, return the same result and end
in related states.
(b) Plot writes nothing itself: for every Plotter the program state after Plot
is the state before it after the dispatched calls alone.
(c) If no method of the Plotter writes to the Image (its struct, the elements of
its slice, the Steps behind them), memory holds the same Image after Plot as
before, with the same Steps and Copies, and Plot on the pointer is the replay
of the Image value.
(d) A pass of a fresh Bound leaves the memory as it was and ends in the Bound of
the replay of the Image value; a second pass of a fresh Bound, made after the
first, ends in the same Bound. -/
theorem C16_replay_reads_only {σ1 σ2 : Type} (im1 im2 : Nat)
    (p1 : Plotter (Memory R × σ1) ε R) (p2 : Plotter (Memory R × σ2) ε R)
    (Rel : Memory R × σ1 → Memory R × σ2 → Prop)
    (w1 : Memory R × σ1) (w2 : Memory R × σ2) (h0 : Rel w1 w2)
    (hread : ∀ v1 v2, Rel v1 v2 →
      v1.1.load (w1.1.images im1).Steps = v2.1.load (w2.1.images im2).Steps)
    (hstep : ∀ c v1 v2, Rel v1 v2 →
      (p1.call c v1).2 = (p2.call c v2).2 ∧ Rel (p1.call c v1).1 (p2.call c v2).1)
    (m : Memory R) (im : Nat) :
    (dispatchedPtr im1 p1 w1 = dispatchedPtr im2 p2 w2
      ∧ (PlotPtr im1 p1 w1).2 = (PlotPtr im2 p2 w2).2
      ∧ Rel (PlotPtr im1 p1 w1).1 (PlotPtr im2 p2 w2).1)
    ∧ (PlotPtr im1 p1 w1).1 = p1.feed ((dispatchedPtr im1 p1 w1).map Prod.fst) w1
    ∧ ((∀ (c : Call R) (v : Memory R × σ1), v.1.SameImage (p1.call c v).1.1 im1) →
        w1.1.SameImage (PlotPtr im1 p1 w1).1.1 im1
        ∧ ((PlotPtr im1 p1 w1).1.1.image im1).Steps = (w1.1.image im1).Steps
        ∧ ((PlotPtr im1 p1 w1).1.1.image im1).Copies = (w1.1.image im1).Copies
        ∧ PlotPtr im1 p1 w1 = (w1.1.image im1).Plot p1 w1
        ∧ dispatchedPtr im1 p1 w1 = (w1.1.image im1).dispatched p1 w1)
    ∧ (PlotPtr im Bound.plotter.withMemory (m, (Bound.fresh : Bound R))
          = ((m, ((m.image im).Plot Bound.plotter Bound.fresh).1),
              ((m.image im).Plot Bound.plotter Bound.fresh).2)
        ∧ PlotPtr im Bound.plotter.withMemory
            ((PlotPtr im Bound.plotter.withMemory (m, (Bound.fresh : Bound R))).1.1, Bound.fresh)
          = PlotPtr im Bound.plotter.withMemory (m, Bound.fresh)) := by
  refine ⟨⟨?_, ?_⟩, plotPtr_feed im1 p1 w1, ?_, plotPtr_withMemory _ m im _, ?_⟩
  · exact dispatchedPtr_bisim im1 im2 p1 p2 Rel w1 w2 h0 hread hstep
  · exact plotPtr_bisim im1 im2 p1 p2 Rel w1 w2 h0 hread hstep
  · intro hframe
    obtain ⟨ha, hb⟩ := plotPtr_frame im1 p1 w1 hframe
    have hc := Memory.sameImage_image _ _ im1 ha
    exact ⟨ha, by rw [hc], by rw [hc], hb, dispatchedPtr_frame im1 p1 w1 hframe⟩
  · simp only [plotPtr_withMemory]

/-- Witness of C16: the Image of MoveXY(1, 1), SetOrigin(), LineXY(2, 3, 50)
behind the pointer 0, replayed through a fresh Bound and through an unexported
plotter, two program states being related when both hold that memory: the two
replays dispatch the same calls; after the pass of the Bound, which does not
write to the Image, memory holds the same Steps and Copies; and that pass ends
with the two points (1, 1) and (3, 4) in the box [1, 3] x [1, 4]. -/
theorem C16_replay_reads_only_witness :
    dispatchedPtr 0 Bound.plotter.withMemory
        (Memory.ofImage ((NewImage : Image ℚ).build
          [BuilderCall.MoveXY 1 1, BuilderCall.SetOrigin, BuilderCall.LineXY 2 3 50]),
          (Bound.fresh : Bound ℚ))
      = dispatchedPtr 0 plotter.toPlotter.withMemory
        (Memory.ofImage ((NewImage : Image ℚ).build
          [BuilderCall.MoveXY 1 1, BuilderCall.SetOrigin, BuilderCall.LineXY 2 3 50]),
          MakeRGBA.preview (Bound.fresh : Bound ℚ) 8 8)
    ∧ ((PlotPtr 0 Bound.plotter.withMemory
          (Memory.ofImage ((NewImage : Image ℚ).build
            [BuilderCall.MoveXY 1 1, BuilderCall.SetOrigin, BuilderCall.LineXY 2 3 50]),
            (Bound.fresh : Bound ℚ))).1.1.image 0).Steps
        = ((Memory.ofImage ((NewImage : Image ℚ).build
            [BuilderCall.MoveXY 1 1, BuilderCall.SetOrigin,
              BuilderCall.LineXY 2 3 50])).image 0).Steps
    ∧ ((PlotPtr 0 Bound.plotter.withMemory
          (Memory.ofImage ((NewImage : Image ℚ).build
            [BuilderCall.MoveXY 1 1, BuilderCall.SetOrigin, BuilderCall.LineXY 2 3 50]),
            (Bound.fresh : Bound ℚ))).1.1.image 0).Copies
        = ((Memory.ofImage ((NewImage : Image ℚ).build
            [BuilderCall.MoveXY 1 1, BuilderCall.SetOrigin,
              BuilderCall.LineXY 2 3 50])).image 0).Copies
    ∧ (PlotPtr 0 Bound.plotter.withMemory
          (Memory.ofImage ((NewImage : Image ℚ).build
            [BuilderCall.MoveXY 1 1, BuilderCall.SetOrigin, BuilderCall.LineXY 2 3 50]),
            (Bound.fresh : Bound ℚ))).1.2
        = { pts := 2, oX := 1, oY := 1, lastX := 3, lastY := 4,
            minX := 1, maxX := 3, minY := 1, maxY := 4 } := by
  have h := C16_replay_reads_only 0 0 Bound.plotter.withMemory plotter.toPlotter.withMemory
    (fun v1 v2 =>
      v1.1 = Memory.ofImage ((NewImage : Image ℚ).build
          [BuilderCall.MoveXY 1 1, BuilderCall.SetOrigin, BuilderCall.LineXY 2 3 50])
      ∧ v2.1 = Memory.ofImage ((NewImage : Image ℚ).build
          [BuilderCall.MoveXY 1 1, BuilderCall.SetOrigin, BuilderCall.LineXY 2 3 50]))
    (Memory.ofImage ((NewImage : Image ℚ).build
        [BuilderCall.MoveXY 1 1, BuilderCall.SetOrigin, BuilderCall.LineXY 2 3 50]),
      (Bound.fresh : Bound ℚ))
    (Memory.ofImage ((NewImage : Image ℚ).build
        [BuilderCall.MoveXY 1 1, BuilderCall.SetOrigin, BuilderCall.LineXY 2 3 50]),
      MakeRGBA.preview (Bound.fresh : Bound ℚ) 8 8)
    ⟨rfl, rfl⟩
    (fun v1 v2 hv => by rw [hv.1, hv.2])
    (fun c v1 v2 hv => by
      obtain ⟨a1, b⟩ := v1
      obtain ⟨a2, q⟩ := v2
      rw [withMemory_call, withMemory_call]
      refine ⟨?_, hv.1, hv.2⟩
      cases c with
      | Command cmd =>
        by_cases hc : cmd = CmdSetOrigin <;>
          simp [Plotter.call, Bound.plotter, plotter.toPlotter, Bound.Command, plotter.Command, hc]
      | MoveTo x y z => rfl
      | LineTo x y z => rfl)
    (Memory.ofImage ((NewImage : Image ℚ).build
        [BuilderCall.MoveXY 1 1, BuilderCall.SetOrigin, BuilderCall.LineXY 2 3 50])) 0
  have hc := h.2.2.1 (fun c v => by
    obtain ⟨a, s⟩ := v
    rw [withMemory_call]
    exact Memory.sameImage_refl _ _)
  refine ⟨h.1.1, hc.2.1, hc.2.2.1, ?_⟩
  rw [h.2.2.2.1, Memory.image_ofImage]
  have hsteps : ((NewImage : Image ℚ).build
        [BuilderCall.MoveXY 1 1, BuilderCall.SetOrigin, BuilderCall.LineXY 2 3 50]).Steps
      = [moveXY 1 1, { (Step.zero : Step ℚ) with Command := CmdSetOrigin },
          { moveXY (2 : ℚ) 3 with Active := true, Power := 50 }] := by
    simp [Image.build, Image.invoke, Image.MoveXY, Image.SetOrigin, Image.LineXY, NewImage]
    norm_num
  simp [Image.Plot, hsteps, moveXY, Step.zero, plotSteps, Bound.plotter, Bound.MoveTo_eq,
    Bound.LineTo, Bound.Command, Bound.fresh, CmdInvalid, CmdSetOrigin]
  norm_num

end Claims

end Gcoder
